import Mathlib

/-!
Shallow embedding of the attention / sequence-encoding core of
`code/modules.py` (SQuAD question-answering model).

Tensors are modelled as (nested) lists of real numbers, one batch element at
a time where the TensorFlow code is batched (the batched graph applies the
same arithmetic independently to every batch slice, and batched wrappers are
provided where a claim speaks about the batch dimension).  Padding masks are
lists of natural numbers (the code holds them as integer 0/1 tensors and
casts to float inside `masked_softmax`).  Floating point arithmetic is
idealised as exact real arithmetic, with `Real.exp` for `tf.exp`/softmax;
"numerically zero" statements become explicit `Real.exp`-bounds far below
the smallest positive float.
-/

noncomputable section

namespace Squad

/-- Dot product of two vectors (`tf.matmul` of a row with a column). -/
def dot (a b : List ℝ) : ℝ := (List.zipWith (· * ·) a b).sum

/-- Column `j` of a matrix stored as a list of rows. -/
def matCol (B : List (List ℝ)) (j : ℕ) : List ℝ := B.map (fun r => r.getD j 0)

/-- Matrix product `A · B` where `B` has `cols` columns (`tf.matmul`). -/
def matMul (A B : List (List ℝ)) (cols : ℕ) : List (List ℝ) :=
  A.map (fun row => (List.range cols).map (fun j => dot row (matCol B j)))

/-- Map over a list together with the element index. -/
def idxMap {α β : Type} (f : ℕ → α → β) (l : List α) : List β :=
  List.zipWith f (List.range l.length) l

/-- The large negative constant `-1e30` used by `masked_softmax`
(`code/modules.py` line 396). -/
def largeNeg : ℝ := -(10 : ℝ) ^ 30

/-- `tf.nn.softmax` along one row, in exact real arithmetic:
`softmax(x)_i = exp x_i / Σ_j exp x_j`. -/
def softmaxRow (xs : List ℝ) : List ℝ :=
  xs.map (fun x => Real.exp x / (xs.map Real.exp).sum)

/-- `exp_mask = (1 - tf.cast(mask, 'float')) * (-1e30)`
(`code/modules.py` line 396), one row. -/
def exp_mask (mask : List ℕ) : List ℝ :=
  mask.map (fun (m : ℕ) => (1 - (m : ℝ)) * largeNeg)

/-- `masked_logits = tf.add(logits, exp_mask)` (`code/modules.py` line 397),
one row. -/
def masked_logits (logits : List ℝ) (mask : List ℕ) : List ℝ :=
  List.zipWith (· + ·) logits (exp_mask mask)

/-- `masked_softmax(logits, mask, dim)` (`code/modules.py` lines 377-399)
restricted to a single row along the normalization axis `dim`: returns the
masked logits and the softmax of the masked logits. -/
def masked_softmax (logits : List ℝ) (mask : List ℕ) : List ℝ × List ℝ :=
  (masked_logits logits mask, softmaxRow (masked_logits logits mask))

/-- `masked_softmax` on a 2-D slice with the normalization axis last:
each row of `logits` is normalized against the corresponding row of `mask`.
This is how every call site in `code/modules.py` uses the primitive
(the chosen `dim` is the last axis of the per-batch slice). -/
def masked_softmax2 (logits : List (List ℝ)) (mask : List (List ℕ)) :
    List (List ℝ) × List (List ℝ) :=
  (List.zipWith masked_logits logits mask,
   List.zipWith (fun l m => (masked_softmax l m).2) logits mask)

/-- A quantity below every positive floating-point number: `exp (-10^29)`.
Entries of a masked-softmax output at masked positions are bounded by this
(for logits of at most astronomical magnitude), which is what the spec's
"(numerically) 0" denotes. -/
def numZeroBound : ℝ := Real.exp (-(10 : ℝ) ^ 29)

/-! ### Dropout (`tf.nn.dropout` / `DropoutWrapper` input dropout)

TensorFlow dropout samples a uniform `[0,1)` noise value per element and
computes `x / keep_prob * floor(keep_prob + noise)`.  The noise source is
modelled as an explicit function from element indices to reals. -/

def dropout1 (keepProb noise x : ℝ) : ℝ :=
  x / keepProb * ((⌊keepProb + noise⌋ : ℤ) : ℝ)

def dropoutVecN (keepProb : ℝ) (noise : ℕ → ℝ) (x : List ℝ) : List ℝ :=
  idxMap (fun j v => dropout1 keepProb (noise j) v) x

def dropoutMatN (keepProb : ℝ) (noise : ℕ → ℕ → ℝ) (x : List (List ℝ)) :
    List (List ℝ) :=
  idxMap (fun i row => dropoutVecN keepProb (noise i) row) x

/-- The noise stream takes values in `[0, 1)`, as `tf.random_uniform` does. -/
def Uniform01 (noise : ℕ → ℝ) : Prop := ∀ j, 0 ≤ noise j ∧ noise j < 1

def Uniform01M (noise : ℕ → ℕ → ℝ) : Prop := ∀ i, Uniform01 (noise i)

def Uniform01T (noise : ℕ → ℕ → ℕ → ℝ) : Prop := ∀ l, Uniform01M (noise l)


/-! ### Sequence Encoder (`RNNEncoder`, `code/modules.py` lines 23-104) -/

inductive RNNCellKind where
  | GRU : RNNCellKind
  | LSTM : RNNCellKind
deriving DecidableEq

/-- A recurrent cell wrapped in `DropoutWrapper(cell, input_keep_prob=...)`
(`code/modules.py` lines 55-60). -/
structure WrappedCell where
  kind : RNNCellKind
  hidden_size : ℕ
  input_keep_prob : ℝ

structure RNNEncoder where
  hidden_size : ℕ
  keep_prob : ℝ
  num_layers : ℕ
  mode : String
  name : Option String
  rnn_cells_fw : List WrappedCell
  rnn_cells_bw : List WrappedCell

/-- The constructor loop (`code/modules.py` lines 52-60): per iteration it
appends one `DropoutWrapper(GRUCell)` for mode `"GRU"`, one
`DropoutWrapper(BasicLSTMCell)` for mode `"LSTM"`, and nothing otherwise;
`num_layers` identical iterations produce a `replicate`. -/
def cellsFor (mode : String) (hidden_size : ℕ) (keep_prob : ℝ)
    (num_layers : ℕ) : List WrappedCell :=
  if mode = "GRU" then
    List.replicate num_layers ⟨RNNCellKind.GRU, hidden_size, keep_prob⟩
  else if mode = "LSTM" then
    List.replicate num_layers ⟨RNNCellKind.LSTM, hidden_size, keep_prob⟩
  else []

/-- `RNNEncoder.__init__` (`code/modules.py` lines 39-61). -/
def RNNEncoder.init (hidden_size : ℕ) (keep_prob : ℝ) (num_layers : ℕ)
    (mode : String) (name : Option String) : RNNEncoder :=
  { hidden_size := hidden_size
    keep_prob := keep_prob
    num_layers := num_layers
    mode := mode
    name := name
    rnn_cells_fw := cellsFor mode hidden_size keep_prob num_layers
    rnn_cells_bw := cellsFor mode hidden_size keep_prob num_layers }

/-- Semantics of one raw recurrent cell step (state, input ↦ new state,
output).  `GRUCell`/`BasicLSTMCell` are TensorFlow library code outside this
repository, so theorems quantify over the step function. -/
def CellStep : Type := List ℝ → List ℝ → List ℝ × List ℝ

def zeroVec (n : ℕ) : List ℝ := List.replicate n 0

/-- `tf.nn.dynamic_rnn` with `sequence_length`: past the sequence length the
output is zero and the state stops advancing. -/
def dynamicRnn (step : CellStep) (hiddenSize : ℕ) :
    List ℝ → List (List ℝ) → ℕ → List (List ℝ)
  | _, [], _ => []
  | state, _ :: rest, 0 => zeroVec hiddenSize :: dynamicRnn step hiddenSize state rest 0
  | state, x :: rest, len + 1 =>
      let so := step state x
      so.2 :: dynamicRnn step hiddenSize so.1 rest len

/-- `tf.reverse_sequence`: reverse the first `len` elements in place. -/
def reverseSeq {α : Type} (l : List α) (len : ℕ) : List α :=
  (l.take len).reverse ++ l.drop len

/-- One bidirectional layer (`tf.nn.bidirectional_dynamic_rnn` over a pair of
`DropoutWrapper`ed cells): input dropout per direction, forward and backward
passes, outputs concatenated per position. -/
def biLayer (stepF stepB : CellStep) (stateF0 stateB0 : List ℝ)
    (hiddenSize : ℕ) (keepF keepB : ℝ) (noiseF noiseB : ℕ → ℕ → ℝ)
    (inputs : List (List ℝ)) (len : ℕ) : List (List ℝ) :=
  let inF := dropoutMatN keepF noiseF inputs
  let inB := dropoutMatN keepB noiseB (reverseSeq inputs len)
  let fw := dynamicRnn stepF hiddenSize stateF0 inF len
  let bw := reverseSeq (dynamicRnn stepB hiddenSize stateB0 inB len) len
  List.zipWith (· ++ ·) fw bw

/-- `tf.contrib.rnn.stack_bidirectional_dynamic_rnn`: one bidirectional layer
per cell pair, each layer feeding the next. -/
def stackBi (cellStep : WrappedCell → CellStep)
    (cellState0 : WrappedCell → List ℝ) (hiddenSize len : ℕ) :
    List (WrappedCell × WrappedCell) → (ℕ → ℕ → ℕ → ℝ) → (ℕ → ℕ → ℕ → ℝ) →
    List (List ℝ) → List (List ℝ)
  | [], _, _, prev => prev
  | (cf, cb) :: rest, noiseF, noiseB, prev =>
      let out := biLayer (cellStep cf) (cellStep cb) (cellState0 cf)
        (cellState0 cb) hiddenSize cf.input_keep_prob cb.input_keep_prob
        (noiseF 0) (noiseB 0) prev len
      stackBi cellStep cellState0 hiddenSize len rest
        (fun l => noiseF (l + 1)) (fun l => noiseB (l + 1)) out

/-- `RNNEncoder.build_graph` (`code/modules.py` lines 64-104), one batch
element.  `input_lens = tf.reduce_sum(masks)` (line 80); for
`num_layers == 1` the code indexes `self.rnn_cells_fw[0]` and
`self.rnn_cells_bw[0]` (lines 84-85), which raises `IndexError` on an empty
cell list — modelled by `Option.none`; line 102 applies output dropout. -/
def RNNEncoder.build_graph (e : RNNEncoder)
    (cellStep : WrappedCell → CellStep) (cellState0 : WrappedCell → List ℝ)
    (inputs : List (List ℝ)) (masks : List ℕ)
    (noiseF noiseB : ℕ → ℕ → ℕ → ℝ) (noiseOut : ℕ → ℕ → ℝ) :
    Option (List (List ℝ)) :=
  let input_lens := masks.sum
  if e.num_layers = 1 then
    match e.rnn_cells_fw[0]?, e.rnn_cells_bw[0]? with
    | some cf, some cb =>
        let out := biLayer (cellStep cf) (cellStep cb) (cellState0 cf)
          (cellState0 cb) e.hidden_size cf.input_keep_prob cb.input_keep_prob
          (noiseF 0) (noiseB 0) inputs input_lens
        some (dropoutMatN e.keep_prob noiseOut out)
    | _, _ => none
  else
    let out := stackBi cellStep cellState0 e.hidden_size input_lens
      (e.rnn_cells_fw.zip e.rnn_cells_bw) noiseF noiseB inputs
    some (dropoutMatN e.keep_prob noiseOut out)

/-! ### Basic Attention (`BasicAttn`, `code/modules.py` lines 314-374) -/

/-- `attn_logits = tf.matmul(keys, tf.transpose(values, [0,2,1]))`
(lines 363-364): entry (k, j) is the dot product of key `k` with value `j`. -/
def basicAttnLogits (values keys : List (List ℝ)) : List (List ℝ) :=
  keys.map (fun k => values.map (fun v => dot k v))

/-- `BasicAttn.build_graph` (lines 340-374), one batch element.  The mask is
`tf.expand_dims(values_mask, 1)` (line 365): the same `values_mask` row is
broadcast to every key row of the logits. -/
def BasicAttn.build_graph (keep_prob : ℝ) (value_vec_size : ℕ)
    (values : List (List ℝ)) (values_mask : List ℕ) (keys : List (List ℝ))
    (noise : ℕ → ℕ → ℝ) : List (List ℝ) × List (List ℝ) :=
  let attn_logits := basicAttnLogits values keys
  let attn_dist := attn_logits.map (fun row => (masked_softmax row values_mask).2)
  let output := matMul attn_dist values value_vec_size
  (attn_dist, dropoutMatN keep_prob noise output)

/-! ### Self Attention (`SelfAttn`, `code/modules.py` lines 144-209) -/

/-- The additive score matrix `E` (lines 189-199):
`E[i][j] = ⟨tanh(values_1[j] + values_2[i]), v⟩`. -/
def selfAttnScores (W1 W2 : List (List ℝ)) (v : List ℝ)
    (attention_size : ℕ) (contexts : List (List ℝ)) : List (List ℝ) :=
  let values_1 := matMul contexts W1 attention_size
  let values_2 := matMul contexts W2 attention_size
  values_2.map (fun vi => values_1.map (fun vj =>
    dot ((List.zipWith (· + ·) vj vi).map Real.tanh) v))

/-- `E_mask = contexts_mask * tf.transpose(contexts_mask, [0,2,1])`
(lines 201-202): entry (i, j) is `mask[i] * mask[j]`. -/
def selfAttnMask (contexts_mask : List ℕ) : List (List ℕ) :=
  contexts_mask.map (fun mi => contexts_mask.map (fun mj => mi * mj))

/-- `SelfAttn.build_graph` (lines 160-209), one batch element. -/
def SelfAttn.build_graph (keep_prob : ℝ) (hidden_size attention_size : ℕ)
    (W1 W2 : List (List ℝ)) (v : List ℝ)
    (contexts : List (List ℝ)) (contexts_mask : List ℕ)
    (noise : ℕ → ℕ → ℝ) : List (List ℝ) × List (List ℝ) :=
  let E := selfAttnScores W1 W2 v attention_size contexts
  let E_mask := selfAttnMask contexts_mask
  let attn_p := (masked_softmax2 E E_mask).2
  let output := matMul attn_p contexts hidden_size
  (attn_p, dropoutMatN keep_prob noise output)

/-! ### Bidirectional Attention (`BidirectionAttn`,
`code/modules.py` lines 211-312) -/

/-- `build_similarity_matrix` (lines 224-253): `CW` is the elementwise
`w_sim_3`-scaling of the contexts, `term1`/`term2`/`term3` the three dot
product families, and `S` their broadcast sum. -/
def BidirectionAttn.build_similarity_matrix (w_sim_1 w_sim_2 w_sim_3 : List ℝ)
    (questions contexts : List (List ℝ)) : List (List ℝ) :=
  let CW := contexts.map (fun c => List.zipWith (· * ·) c w_sim_3)
  let term1 := contexts.map (fun c => dot c w_sim_1)
  let term2 := questions.map (fun q => dot q w_sim_2)
  let term3 := CW.map (fun cw => questions.map (fun q => dot cw q))
  List.zipWith (fun t1 row3 =>
    List.zipWith (fun t3 t2 => t1 + t3 + t2) row3 term2) term1 term3

/-- `S_mask = tf.matmul(contexts_mask, transpose(questions_mask))`
(lines 286-291): entry (i, j) is `contexts_mask[i] * questions_mask[j]`. -/
def bidafSMask (contexts_mask questions_mask : List ℕ) : List (List ℕ) :=
  contexts_mask.map (fun mc => questions_mask.map (fun mq => mc * mq))

/-- `tf.reduce_max` along one row. -/
def rowMax : List ℝ → ℝ
  | [] => 0
  | x :: xs => xs.foldl max x

def zip3With {α β γ δ : Type} (f : α → β → γ → δ) :
    List α → List β → List γ → List δ
  | a :: as, b :: bs, c :: cs => f a b c :: zip3With f as bs cs
  | _, _, _ => []

/-- `BidirectionAttn.build_graph` (lines 255-312), one batch element.
Line 293 rebinds `S` to the masked logits; line 300 takes `reduce_max` of
that masked matrix over the question axis; line 301 applies a plain
`tf.nn.softmax` over the context axis; lines 303-305 form the single
beta-weighted context summary and tile it over all context positions;
line 306 concatenates the three fusion segments. -/
def BidirectionAttn.build_graph (keep_prob : ℝ) (hidden_size : ℕ)
    (w_sim_1 w_sim_2 w_sim_3 : List ℝ)
    (questions : List (List ℝ)) (questions_mask : List ℕ)
    (contexts : List (List ℝ)) (contexts_mask : List ℕ)
    (noise : ℕ → ℕ → ℝ) :
    List (List ℝ) × List ℝ × List (List ℝ) :=
  let S0 := BidirectionAttn.build_similarity_matrix w_sim_1 w_sim_2 w_sim_3
    questions contexts
  let S_mask := bidafSMask contexts_mask questions_mask
  let Spair := masked_softmax2 S0 S_mask
  let S := Spair.1
  let alpha := Spair.2
  let c2q_output := matMul alpha questions (2 * hidden_size)
  let m := S.map rowMax
  let beta := softmaxRow m
  let q2c := (List.range (2 * hidden_size)).map (fun d => dot beta (matCol contexts d))
  let q2c_tiled := List.replicate contexts.length q2c
  let output := zip3With (fun a c qc =>
      a ++ List.zipWith (· * ·) a c ++ List.zipWith (· * ·) qc c)
    c2q_output contexts q2c_tiled
  (alpha, beta, dropoutMatN keep_prob noise output)

/-- Sum of absolute values of a vector. -/
def l1norm (v : List ℝ) : ℝ := (v.map (fun x => |x|)).sum

/-- Batched similarity matrix: the TensorFlow graph applies
`build_similarity_matrix` independently to every batch slice. -/
def similarity_batch (w_sim_1 w_sim_2 w_sim_3 : List ℝ)
    (questionsB contextsB : List (List (List ℝ))) : List (List (List ℝ)) :=
  List.zipWith (BidirectionAttn.build_similarity_matrix w_sim_1 w_sim_2 w_sim_3)
    questionsB contextsB

/-- Batched `BasicAttn.build_graph`: one slice per batch element, returning
the stacked distributions and outputs. -/
def BasicAttn.build_graph_batch (keep_prob : ℝ) (value_vec_size : ℕ)
    (valuesB : List (List (List ℝ))) (values_maskB : List (List ℕ))
    (keysB : List (List (List ℝ))) (noise : ℕ → ℕ → ℕ → ℝ) :
    List (List (List ℝ)) × List (List (List ℝ)) :=
  let per := idxMap (fun b vmk =>
      BasicAttn.build_graph keep_prob value_vec_size vmk.1 vmk.2.1 vmk.2.2
        (noise b))
    (valuesB.zip (values_maskB.zip keysB))
  (per.map Prod.fst, per.map Prod.snd)

/-- The pairwise mask as the spec words it: entry (i, j) is valid (1) only
if both position i and position j are real tokens (mask 1).  Used to compare
against the code's `selfAttnMask`. -/
def outerAndMask (mask : List ℕ) : List (List ℕ) :=
  mask.map (fun mi => mask.map (fun mj => if mi = 1 ∧ mj = 1 then 1 else 0))

/-! ### Basic facts about `softmaxRow` -/

lemma expSum_pos (xs : List ℝ) (h : xs ≠ []) : 0 < (xs.map Real.exp).sum := by
  cases xs with
  | nil => exact absurd rfl h
  | cons a t =>
    have ht : 0 ≤ (t.map Real.exp).sum := by
      apply List.sum_nonneg
      intro x hx
      obtain ⟨y, _, rfl⟩ := List.mem_map.mp hx
      exact le_of_lt (Real.exp_pos y)
    have ha : 0 < Real.exp a := Real.exp_pos a
    simpa using add_pos_of_pos_of_nonneg ha ht

lemma softmaxRow_length (xs : List ℝ) : (softmaxRow xs).length = xs.length := by
  simp [softmaxRow]

lemma softmaxRow_sum (xs : List ℝ) (h : xs ≠ []) : (softmaxRow xs).sum = 1 := by
  have hS : (xs.map Real.exp).sum ≠ 0 := ne_of_gt (expSum_pos xs h)
  have hmap : (softmaxRow xs).sum = (xs.map Real.exp).sum / (xs.map Real.exp).sum := by
    simp only [softmaxRow, div_eq_mul_inv]
    rw [← List.sum_map_mul_right]
  rw [hmap, div_self hS]

lemma getD_eq {α : Type} (l : List α) (d : α) (i : ℕ) (h : i < l.length) :
    l.getD i d = l[i] := by
  simp [List.getD_eq_getElem?_getD, List.getElem?_eq_getElem h]

lemma mem_of_getElem?_eq {α : Type} {l : List α} {i : ℕ} {a : α}
    (h : l[i]? = some a) : a ∈ l := by
  obtain ⟨hlt, rfl⟩ := List.getElem?_eq_some.mp h
  exact List.getElem_mem hlt

lemma softmaxRow_getD (xs : List ℝ) (i : ℕ) (h : i < xs.length) :
    (softmaxRow xs).getD i 0 =
      Real.exp (xs.getD i 0) / (xs.map Real.exp).sum := by
  have h2 : i < (softmaxRow xs).length := by simpa [softmaxRow_length] using h
  rw [getD_eq _ _ _ h2, getD_eq _ _ _ h]
  simp [softmaxRow]

lemma softmaxRow_nonneg (xs : List ℝ) (x : ℝ) (hx : x ∈ softmaxRow xs) : 0 ≤ x := by
  obtain ⟨y, _, rfl⟩ := List.mem_map.mp hx
  have hnum : 0 ≤ Real.exp y := le_of_lt (Real.exp_pos y)
  have hden : 0 ≤ (xs.map Real.exp).sum := by
    apply List.sum_nonneg
    intro z hz
    obtain ⟨w, _, rfl⟩ := List.mem_map.mp hz
    exact le_of_lt (Real.exp_pos w)
  exact div_nonneg hnum hden

/-- One softmax entry is at most the ratio of its exponential against any
other single entry of the row. -/
lemma softmaxRow_getD_le (xs : List ℝ) (i j : ℕ)
    (hi : i < xs.length) (hj : j < xs.length) :
    (softmaxRow xs).getD i 0 ≤ Real.exp (xs.getD i 0 - xs.getD j 0) := by
  rw [softmaxRow_getD xs i hi, Real.exp_sub]
  have hmem : Real.exp (xs.getD j 0) ∈ xs.map Real.exp := by
    rw [getD_eq _ _ _ hj]
    exact List.mem_map.mpr ⟨xs[j], List.getElem_mem hj, rfl⟩
  have hle : Real.exp (xs.getD j 0) ≤ (xs.map Real.exp).sum := by
    apply List.single_le_sum _ _ hmem
    intro x hx
    obtain ⟨y, _, rfl⟩ := List.mem_map.mp hx
    exact le_of_lt (Real.exp_pos y)
  exact div_le_div_of_nonneg_left (le_of_lt (Real.exp_pos _)) (Real.exp_pos _) hle

/-- Softmax is invariant under adding the same constant to every logit. -/
lemma softmaxRow_shift (xs : List ℝ) (c : ℝ) :
    softmaxRow (xs.map (· + c)) = softmaxRow xs := by
  have hden : (xs.map (Real.exp ∘ fun x => x + c)).sum =
      (xs.map Real.exp).sum * Real.exp c := by
    have hco : (Real.exp ∘ fun x => x + c) = fun x => Real.exp x * Real.exp c := by
      funext x
      simp [Function.comp, Real.exp_add]
    rw [hco, ← List.sum_map_mul_right]
  simp only [softmaxRow, List.map_map, hden]
  apply List.map_congr_left
  intro a _
  simp [Function.comp, Real.exp_add, mul_div_mul_right, Real.exp_ne_zero]

/-! ### Facts about `masked_softmax` on one row -/

lemma masked_logits_length (logits : List ℝ) (mask : List ℕ) :
    (masked_logits logits mask).length = min logits.length mask.length := by
  rw [masked_logits, List.length_zipWith, exp_mask, List.length_map]

lemma masked_logits_getD (logits : List ℝ) (mask : List ℕ) (i : ℕ)
    (hi : i < logits.length) (hm : i < mask.length) :
    (masked_logits logits mask).getD i 0 =
      logits.getD i 0 + (1 - (mask.getD i 0 : ℝ)) * largeNeg := by
  have hlen : i < (masked_logits logits mask).length := by
    simp [masked_logits_length]
    omega
  rw [getD_eq _ _ _ hlen, getD_eq _ _ _ hi, getD_eq _ _ _ hm]
  simp only [masked_logits, List.getElem_zipWith, exp_mask, List.getElem_map]

/-- Where the mask is 1, the masked logits are unchanged. -/
lemma masked_logits_unchanged (logits : List ℝ) (mask : List ℕ) (i : ℕ)
    (hi : i < logits.length) (hm : i < mask.length)
    (h1 : mask.getD i 0 = 1) :
    (masked_logits logits mask).getD i 0 = logits.getD i 0 := by
  rw [masked_logits_getD logits mask i hi hm, h1]
  norm_num

/-- The masked-softmax distribution of a nonempty row sums to 1, whatever the
mask. -/
lemma masked_softmax_sum (logits : List ℝ) (mask : List ℕ)
    (hlen : logits.length = mask.length) (hne : logits ≠ []) :
    ((masked_softmax logits mask).2).sum = 1 := by
  apply softmaxRow_sum
  intro hcon
  have := masked_logits_length logits mask
  rw [hcon] at this
  simp [← hlen] at this
  exact hne (List.eq_nil_of_length_eq_zero this.symm)

/-- A masked (mask=0) entry of the distribution is exponentially suppressed
against any unmasked (mask=1) entry. -/
lemma masked_softmax_masked_le (logits : List ℝ) (mask : List ℕ) (i j : ℕ)
    (hlen : logits.length = mask.length)
    (hi : i < logits.length) (hj : j < logits.length)
    (hmi : mask.getD i 0 = 0) (hmj : mask.getD j 0 = 1) :
    ((masked_softmax logits mask).2).getD i 0 ≤
      Real.exp (logits.getD i 0 - logits.getD j 0 + largeNeg) := by
  have hmlen : (masked_logits logits mask).length = logits.length := by
    rw [masked_logits_length, hlen, min_self]
  have hi' : i < (masked_logits logits mask).length := by omega
  have hj' : j < (masked_logits logits mask).length := by omega
  have hle := softmaxRow_getD_le (masked_logits logits mask) i j hi' hj'
  have hvi : (masked_logits logits mask).getD i 0 = logits.getD i 0 + largeNeg := by
    rw [masked_logits_getD logits mask i hi (by omega), hmi]
    norm_num
  have hvj : (masked_logits logits mask).getD j 0 = logits.getD j 0 :=
    masked_logits_unchanged logits mask j hj (by omega) hmj
  rw [hvi, hvj] at hle
  calc ((masked_softmax logits mask).2).getD i 0
      ≤ Real.exp (logits.getD i 0 + largeNeg - logits.getD j 0) := hle
    _ = Real.exp (logits.getD i 0 - logits.getD j 0 + largeNeg) := by ring_nf

/-- For logits below astronomic magnitude, the exponential suppression is
below `numZeroBound`, hence below any positive floating-point value. -/
lemma exp_suppressed_le_numZeroBound (a b : ℝ)
    (ha : |a| ≤ (10:ℝ)^15) (hb : |b| ≤ (10:ℝ)^15) :
    Real.exp (a - b + largeNeg) ≤ numZeroBound := by
  rw [numZeroBound]
  apply Real.exp_le_exp.mpr
  rw [largeNeg]
  obtain ⟨ha1, ha2⟩ := abs_le.mp ha
  obtain ⟨hb1, hb2⟩ := abs_le.mp hb
  nlinarith [pow_pos (show (0:ℝ) < 10 by norm_num) 29,
             pow_pos (show (0:ℝ) < 10 by norm_num) 30]

/-- With every mask entry 0, `masked_logits` is a uniform shift of the
logits. -/
lemma masked_logits_all_masked (logits : List ℝ) (mask : List ℕ)
    (hlen : logits.length = mask.length) (h : ∀ m ∈ mask, m = 0) :
    masked_logits logits mask = logits.map (fun x => x + largeNeg) := by
  induction logits generalizing mask with
  | nil => simp [masked_logits]
  | cons a t ih =>
    cases mask with
    | nil => simp at hlen
    | cons m ms =>
      have hm : m = 0 := h m (List.mem_cons_self m ms)
      have hlen2 : t.length = ms.length := by simpa using hlen
      have hms : ∀ x ∈ ms, x = 0 := fun x hx => h x (List.mem_cons_of_mem _ hx)
      have htail := ih ms hlen2 hms
      simp only [masked_logits, exp_mask] at htail
      simp only [masked_logits, exp_mask, List.map_cons, List.zipWith_cons_cons,
        List.cons.injEq]
      exact ⟨by rw [hm]; push_cast; ring, htail⟩

/-- An all-masked row produces the softmax of the original logits: the
uniform `-1e30` shift cancels in the softmax. -/
lemma masked_softmax_all_masked (logits : List ℝ) (mask : List ℕ)
    (hlen : logits.length = mask.length) (h : ∀ m ∈ mask, m = 0) :
    (masked_softmax logits mask).2 = softmaxRow logits := by
  show softmaxRow (masked_logits logits mask) = softmaxRow logits
  rw [masked_logits_all_masked logits mask hlen h]
  exact softmaxRow_shift logits largeNeg

/-- Row extraction from the 2-D masked softmax. -/
lemma masked_softmax2_snd_getD (logits : List (List ℝ)) (mask : List (List ℕ))
    (i : ℕ) (hi : i < logits.length) (hm : i < mask.length) :
    ((masked_softmax2 logits mask).2).getD i [] =
      (masked_softmax (logits.getD i []) (mask.getD i [])).2 := by
  have hlen : i < ((masked_softmax2 logits mask).2).length := by
    simp [masked_softmax2]
    omega
  rw [getD_eq _ _ _ hlen, getD_eq _ _ _ hi, getD_eq _ _ _ hm]
  simp [masked_softmax2]

lemma masked_softmax2_fst_getD (logits : List (List ℝ)) (mask : List (List ℕ))
    (i : ℕ) (hi : i < logits.length) (hm : i < mask.length) :
    ((masked_softmax2 logits mask).1).getD i [] =
      masked_logits (logits.getD i []) (mask.getD i []) := by
  have hlen : i < ((masked_softmax2 logits mask).1).length := by
    simp [masked_softmax2]
    omega
  rw [getD_eq _ _ _ hlen, getD_eq _ _ _ hi, getD_eq _ _ _ hm]
  simp [masked_softmax2]

/-- `numZeroBound` is a genuinely small quantity (far below 1/2). -/
lemma numZeroBound_lt_half : numZeroBound < 1 / 2 := by
  have hexp := Real.add_one_le_exp ((10:ℝ)^29)
  have hpos := Real.exp_pos ((10:ℝ)^29)
  have h2 : (2:ℝ) < Real.exp ((10:ℝ)^29) := by nlinarith
  rw [numZeroBound, Real.exp_neg]
  calc (Real.exp ((10:ℝ)^29))⁻¹ < 2⁻¹ := by
        apply inv_strictAnti₀ (by norm_num) h2
    _ = 1 / 2 := by norm_num

lemma dropout1_one (u x : ℝ) (h0 : 0 ≤ u) (h1 : u < 1) : dropout1 1 u x = x := by
  have hfloor : ⌊(1:ℝ) + u⌋ = 1 := by
    rw [Int.floor_eq_iff]
    push_cast
    constructor <;> linarith
  simp [dropout1, hfloor]

lemma idxMap_length {α β : Type} (f : ℕ → α → β) (l : List α) :
    (idxMap f l).length = l.length := by
  simp [idxMap]

lemma idxMap_getD {α β : Type} (f : ℕ → α → β) (l : List α) (i : ℕ)
    (d : β) (dα : α) (h : i < l.length) :
    (idxMap f l).getD i d = f i (l.getD i dα) := by
  have h2 : i < (idxMap f l).length := by simpa [idxMap_length] using h
  rw [getD_eq _ _ _ h2, getD_eq _ _ _ h]
  simp [idxMap]

lemma dropoutVecN_one (noise : ℕ → ℝ) (x : List ℝ) (h : Uniform01 noise) :
    dropoutVecN 1 noise x = x := by
  apply List.ext_getElem
  · simp [dropoutVecN, idxMap_length]
  · intro i h1 h2
    simp only [dropoutVecN, idxMap, List.getElem_zipWith, List.getElem_range]
    exact dropout1_one (noise i) x[i] (h i).1 (h i).2

lemma dropoutMatN_one (noise : ℕ → ℕ → ℝ) (x : List (List ℝ))
    (h : Uniform01M noise) : dropoutMatN 1 noise x = x := by
  apply List.ext_getElem
  · simp [dropoutMatN, idxMap_length]
  · intro i h1 h2
    simp only [dropoutMatN, idxMap, List.getElem_zipWith, List.getElem_range]
    exact dropoutVecN_one (noise i) x[i] (h i)


/-! ### Generic helper lemmas -/

lemma zipWith_map_same {α β γ δ : Type} (f : β → γ → δ) (g : α → β) (h : α → γ)
    (l : List α) :
    List.zipWith f (l.map g) (l.map h) = l.map (fun x => f (g x) (h x)) := by
  induction l with
  | nil => rfl
  | cons a t ih => simp [ih]

lemma dot_comm (a b : List ℝ) : dot a b = dot b a := by
  unfold dot
  rw [List.zipWith_comm_of_comm]
  intro x y
  exact mul_comm x y

lemma zipWith_mul_comm (a b : List ℝ) :
    List.zipWith (· * ·) a b = List.zipWith (· * ·) b a := by
  rw [List.zipWith_comm_of_comm]
  intro x y
  exact mul_comm x y

lemma dot_eq_sum (a b : List ℝ) (h : a.length = b.length) :
    dot a b = ∑ j ∈ Finset.range a.length, a.getD j 0 * b.getD j 0 := by
  induction a generalizing b with
  | nil => simp [dot]
  | cons x t ih =>
    cases b with
    | nil => simp at h
    | cons y s =>
      have h2 : t.length = s.length := by simpa using h
      have hdt : dot (x :: t) (y :: s) = x * y + dot t s := by
        simp [dot]
      rw [hdt, show (x :: t).length = t.length + 1 from rfl,
        Finset.sum_range_succ']
      simp only [List.getD_cons_succ, List.getD_cons_zero]
      rw [ih s h2]
      ring

lemma l1norm_nonneg (v : List ℝ) : 0 ≤ l1norm v := by
  apply List.sum_nonneg
  intro x hx
  obtain ⟨y, _, rfl⟩ := List.mem_map.mp hx
  exact abs_nonneg y

lemma abs_tanh_le_one (x : ℝ) : |Real.tanh x| ≤ 1 := by
  have hc : 0 < Real.cosh x := Real.cosh_pos x
  have hsq : Real.cosh x ^ 2 = Real.sinh x ^ 2 + 1 := by
    have := Real.cosh_sq_sub_sinh_sq x
    nlinarith
  have habs : |Real.sinh x| ≤ Real.cosh x := by
    nlinarith [abs_nonneg (Real.sinh x), sq_abs (Real.sinh x)]
  rw [Real.tanh_eq_sinh_div_cosh, abs_div, abs_of_pos hc, div_le_one hc]
  exact habs

/-- A dot product of a vector of hyperbolic tangents against `v` is bounded
by the ℓ¹ norm of `v`. -/
lemma abs_dot_tanh_le (w v : List ℝ) :
    |dot (w.map Real.tanh) v| ≤ l1norm v := by
  induction w generalizing v with
  | nil =>
    simp [dot, l1norm_nonneg]
  | cons a t ih =>
    cases v with
    | nil => simp [dot, l1norm]
    | cons x xs =>
      have hd : dot ((a :: t).map Real.tanh) (x :: xs) =
          Real.tanh a * x + dot (t.map Real.tanh) xs := by
        simp [dot]
      have hl : l1norm (x :: xs) = |x| + l1norm xs := by
        simp [l1norm]
      rw [hd, hl]
      have h1 : |Real.tanh a * x| ≤ |x| := by
        rw [abs_mul]
        calc |Real.tanh a| * |x| ≤ 1 * |x| :=
              mul_le_mul_of_nonneg_right (abs_tanh_le_one a) (abs_nonneg x)
          _ = |x| := one_mul _
      calc |Real.tanh a * x + dot (t.map Real.tanh) xs|
          ≤ |Real.tanh a * x| + |dot (t.map Real.tanh) xs| := abs_add _ _
        _ ≤ |x| + l1norm xs := add_le_add h1 (ih xs)

/-- Evaluating the all-zero two-entry row under an all-masked mask: the
distribution is uniform `[1/2, 1/2]`, not near zero. -/
lemma masked_softmax_zero_row :
    (masked_softmax [0, 0] [0, 0]).2 = [1 / 2, 1 / 2] := by
  rw [masked_softmax_all_masked _ _ (by simp) (by intro m hm; simpa using hm)]
  simp [softmaxRow, Real.exp_zero]
  norm_num

/-! ### Length and entry lemmas for the similarity matrix -/

lemma simMatrix_length (w1 w2 w3 : List ℝ) (q c : List (List ℝ)) :
    (BidirectionAttn.build_similarity_matrix w1 w2 w3 q c).length = c.length := by
  simp [BidirectionAttn.build_similarity_matrix]

lemma simMatrix_getD (w1 w2 w3 : List ℝ) (q c : List (List ℝ)) (i : ℕ)
    (hi : i < c.length) :
    (BidirectionAttn.build_similarity_matrix w1 w2 w3 q c).getD i [] =
      q.map (fun qj => dot (c.getD i []) w1 +
        dot (List.zipWith (· * ·) (c.getD i []) w3) qj + dot qj w2) := by
  unfold BidirectionAttn.build_similarity_matrix
  simp only [List.map_map]
  rw [zipWith_map_same]
  rw [getD_eq _ _ _ (by simpa using hi), getD_eq _ _ _ hi]
  simp only [List.getElem_map, Function.comp]
  rw [zipWith_map_same]

lemma simMatrix_row_length (w1 w2 w3 : List ℝ) (q c : List (List ℝ)) (i : ℕ)
    (hi : i < c.length) :
    ((BidirectionAttn.build_similarity_matrix w1 w2 w3 q c).getD i []).length
      = q.length := by
  rw [simMatrix_getD w1 w2 w3 q c i hi]
  simp

lemma bidafSMask_length (cm qm : List ℕ) : (bidafSMask cm qm).length = cm.length := by
  simp [bidafSMask]

lemma bidafSMask_getD (cm qm : List ℕ) (i : ℕ) (hi : i < cm.length) :
    (bidafSMask cm qm).getD i [] = qm.map (fun mq => cm.getD i 0 * mq) := by
  have h2 : i < (bidafSMask cm qm).length := by simpa [bidafSMask_length] using hi
  rw [getD_eq _ _ _ h2, getD_eq _ _ _ hi]
  simp [bidafSMask]

/-! ### Shape and entry lemmas for the attention modules -/

lemma masked_softmax_snd_length (l : List ℝ) (m : List ℕ) :
    ((masked_softmax l m).2).length = min l.length m.length := by
  show (softmaxRow (masked_logits l m)).length = _
  rw [softmaxRow_length, masked_logits_length]

lemma matCol_length (B : List (List ℝ)) (j : ℕ) :
    (matCol B j).length = B.length := by
  simp [matCol]

lemma matCol_getD (B : List (List ℝ)) (dd j : ℕ) (hj : j < B.length) :
    (matCol B dd).getD j 0 = (B.getD j []).getD dd 0 := by
  rw [getD_eq _ _ _ (by simpa [matCol_length] using hj), getD_eq _ _ _ hj]
  simp [matCol]

lemma matMul_getD (A B : List (List ℝ)) (cols k : ℕ) (hk : k < A.length) :
    (matMul A B cols).getD k [] =
      (List.range cols).map (fun j => dot (A.getD k []) (matCol B j)) := by
  have h2 : k < (matMul A B cols).length := by simpa [matMul] using hk
  rw [getD_eq _ _ _ h2, getD_eq _ _ _ hk]
  simp [matMul]

lemma foldl_max_mem (x : ℝ) (xs : List ℝ) : xs.foldl max x ∈ x :: xs := by
  induction xs generalizing x with
  | nil => simp
  | cons y ys ih =>
    simp only [List.foldl_cons]
    rcases List.mem_cons.mp (ih (max x y)) with h | h
    · rcases max_choice x y with hm | hm
      · rw [h, hm]
        exact List.mem_cons_self _ _
      · rw [h, hm]
        exact List.mem_cons_of_mem _ (List.mem_cons_self _ _)
    · exact List.mem_cons_of_mem _ (List.mem_cons_of_mem _ h)

lemma foldl_max_bounds (x : ℝ) (xs : List ℝ) :
    x ≤ xs.foldl max x ∧ ∀ y ∈ xs, y ≤ xs.foldl max x := by
  induction xs generalizing x with
  | nil => exact ⟨le_refl x, by simp⟩
  | cons y ys ih =>
    simp only [List.foldl_cons]
    obtain ⟨h1, h2⟩ := ih (max x y)
    refine ⟨(le_max_left x y).trans h1, ?_⟩
    intro z hz
    rcases List.mem_cons.mp hz with rfl | hz2
    · exact (le_max_right x z).trans h1
    · exact h2 z hz2

lemma rowMax_mem (l : List ℝ) (h : l ≠ []) : rowMax l ∈ l := by
  cases l with
  | nil => exact absurd rfl h
  | cons x xs => exact foldl_max_mem x xs

lemma le_rowMax (l : List ℝ) (x : ℝ) (hx : x ∈ l) : x ≤ rowMax l := by
  cases l with
  | nil => simp at hx
  | cons y ys =>
    obtain ⟨h1, h2⟩ := foldl_max_bounds y ys
    rcases List.mem_cons.mp hx with rfl | hx2
    · exact h1
    · exact h2 x hx2

lemma masked_softmax2_fst_length (l : List (List ℝ)) (m : List (List ℕ)) :
    ((masked_softmax2 l m).1).length = min l.length m.length := by
  simp [masked_softmax2]

lemma masked_softmax2_snd_length (l : List (List ℝ)) (m : List (List ℕ)) :
    ((masked_softmax2 l m).2).length = min l.length m.length := by
  simp [masked_softmax2]

/-! #### SelfAttn entry lemmas -/

lemma selfAttnScores_length (W1 W2 : List (List ℝ)) (v : List ℝ) (C : ℕ)
    (contexts : List (List ℝ)) :
    (selfAttnScores W1 W2 v C contexts).length = contexts.length := by
  simp [selfAttnScores, matMul]

lemma selfAttnScores_getD (W1 W2 : List (List ℝ)) (v : List ℝ) (C : ℕ)
    (contexts : List (List ℝ)) (i : ℕ) (hi : i < contexts.length) :
    (selfAttnScores W1 W2 v C contexts).getD i [] =
      (matMul contexts W1 C).map (fun vj =>
        dot ((List.zipWith (· + ·) vj ((matMul contexts W2 C).getD i [])).map
          Real.tanh) v) := by
  have h1 : i < (selfAttnScores W1 W2 v C contexts).length := by
    simpa [selfAttnScores_length] using hi
  have h2 : i < (matMul contexts W2 C).length := by simpa [matMul] using hi
  rw [getD_eq _ _ _ h1, getD_eq _ _ _ h2]
  simp [selfAttnScores, List.getElem_map, matMul]

lemma selfAttnScores_row_length (W1 W2 : List (List ℝ)) (v : List ℝ) (C : ℕ)
    (contexts : List (List ℝ)) (i : ℕ) (hi : i < contexts.length) :
    ((selfAttnScores W1 W2 v C contexts).getD i []).length = contexts.length := by
  rw [selfAttnScores_getD W1 W2 v C contexts i hi]
  simp [matMul]

lemma selfAttnScores_abs_le (W1 W2 : List (List ℝ)) (v : List ℝ) (C : ℕ)
    (contexts : List (List ℝ)) (i j : ℕ)
    (hi : i < contexts.length) (hj : j < contexts.length) :
    |((selfAttnScores W1 W2 v C contexts).getD i []).getD j 0| ≤ l1norm v := by
  rw [selfAttnScores_getD W1 W2 v C contexts i hi]
  have hj2 : j < ((matMul contexts W1 C).map (fun vj =>
      dot ((List.zipWith (· + ·) vj ((matMul contexts W2 C).getD i [])).map
        Real.tanh) v)).length := by
    simpa [matMul] using hj
  rw [getD_eq _ _ _ hj2]
  simp only [List.getElem_map]
  exact abs_dot_tanh_le _ v

lemma selfAttnMask_length (m : List ℕ) : (selfAttnMask m).length = m.length := by
  simp [selfAttnMask]

lemma selfAttnMask_getD (m : List ℕ) (i : ℕ) (hi : i < m.length) :
    (selfAttnMask m).getD i [] = m.map (fun mj => m.getD i 0 * mj) := by
  have h1 : i < (selfAttnMask m).length := by simpa [selfAttnMask_length] using hi
  rw [getD_eq _ _ _ h1, getD_eq _ _ _ hi]
  simp [selfAttnMask]

lemma selfAttnMask_entry (m : List ℕ) (i j : ℕ)
    (hi : i < m.length) (hj : j < m.length) :
    ((selfAttnMask m).getD i []).getD j 0 = m.getD i 0 * m.getD j 0 := by
  rw [selfAttnMask_getD m i hi]
  rw [getD_eq _ _ _ (by simpa using hj), getD_eq _ _ _ hj]
  simp

/-! #### BasicAttn entry lemmas -/

lemma basicAttn_fst (keep : ℝ) (d : ℕ) (values : List (List ℝ))
    (vmask : List ℕ) (keys : List (List ℝ)) (noise : ℕ → ℕ → ℝ) :
    (BasicAttn.build_graph keep d values vmask keys noise).1 =
      (basicAttnLogits values keys).map (fun row => (masked_softmax row vmask).2) :=
  rfl

lemma basicAttnLogits_length (values keys : List (List ℝ)) :
    (basicAttnLogits values keys).length = keys.length := by
  simp [basicAttnLogits]

lemma basicAttnLogits_getD (values keys : List (List ℝ)) (k : ℕ)
    (hk : k < keys.length) :
    (basicAttnLogits values keys).getD k [] =
      values.map (fun v => dot (keys.getD k []) v) := by
  have h1 : k < (basicAttnLogits values keys).length := by
    simpa [basicAttnLogits_length] using hk
  rw [getD_eq _ _ _ h1, getD_eq _ _ _ hk]
  simp [basicAttnLogits]

lemma basicAttn_dist_getD (keep : ℝ) (d : ℕ) (values : List (List ℝ))
    (vmask : List ℕ) (keys : List (List ℝ)) (noise : ℕ → ℕ → ℝ) (k : ℕ)
    (hk : k < keys.length) :
    ((BasicAttn.build_graph keep d values vmask keys noise).1).getD k [] =
      (masked_softmax (values.map (fun v => dot (keys.getD k []) v)) vmask).2 := by
  rw [basicAttn_fst]
  have h1 : k < ((basicAttnLogits values keys).map
      (fun row => (masked_softmax row vmask).2)).length := by
    simpa [basicAttnLogits_length] using hk
  rw [getD_eq _ _ _ h1]
  simp only [List.getElem_map]
  rw [← getD_eq (basicAttnLogits values keys) [] k
    (by simpa [basicAttnLogits_length] using hk)]
  rw [basicAttnLogits_getD values keys k hk]

/-! ### C1 -/

/-- C1: for every logits tensor and same-shaped mask and for every row along
the normalization axis holding at least one mask=1 entry (and logits of
non-astronomic magnitude, so that the `-1e30` shift dominates), the
`masked_softmax` distribution of that row sums to 1, its entries at mask=0
positions are numerically zero (below `exp (-10^29)`), and the returned
masked logits at mask=1 positions are unchanged. -/
theorem masked_softmax_valid_row_spec (logits : List (List ℝ))
    (mask : List (List ℕ)) (i : ℕ)
    (hi : i < logits.length) (him : i < mask.length)
    (hrow : (logits.getD i []).length = (mask.getD i []).length)
    (hvalid : ∃ jv, jv < (mask.getD i []).length ∧ (mask.getD i []).getD jv 0 = 1)
    (hbound : ∀ x ∈ logits.getD i [], |x| ≤ (10:ℝ)^15) :
    (((masked_softmax2 logits mask).2).getD i []).sum = 1 ∧
    (∀ j, j < (mask.getD i []).length → (mask.getD i []).getD j 0 = 0 →
      (((masked_softmax2 logits mask).2).getD i []).getD j 0 ≤ numZeroBound) ∧
    (∀ j, j < (mask.getD i []).length → (mask.getD i []).getD j 0 = 1 →
      (((masked_softmax2 logits mask).1).getD i []).getD j 0 =
        (logits.getD i []).getD j 0) := by
  obtain ⟨jv, hjv, hjv1⟩ := hvalid
  have hLne : logits.getD i [] ≠ [] := by
    intro hcon
    have h0 : (logits.getD i []).length = 0 := by rw [hcon]; rfl
    omega
  rw [masked_softmax2_snd_getD logits mask i hi him,
      masked_softmax2_fst_getD logits mask i hi him]
  refine ⟨masked_softmax_sum _ _ hrow hLne, ?_, ?_⟩
  · intro j hj hj0
    have hjL : j < (logits.getD i []).length := by omega
    have hjvL : jv < (logits.getD i []).length := by omega
    have hle := masked_softmax_masked_le (logits.getD i []) (mask.getD i [])
      j jv hrow hjL hjvL hj0 hjv1
    refine hle.trans (exp_suppressed_le_numZeroBound _ _ ?_ ?_)
    · have : (logits.getD i []).getD j 0 ∈ logits.getD i [] := by
        rw [getD_eq _ _ _ hjL]
        exact List.getElem_mem hjL
      exact hbound _ this
    · have : (logits.getD i []).getD jv 0 ∈ logits.getD i [] := by
        rw [getD_eq _ _ _ hjvL]
        exact List.getElem_mem hjvL
      exact hbound _ this
  · intro j hj hj1
    exact masked_logits_unchanged _ _ j (by omega) hj hj1

/-- Witness for C1 at logits row `[0, 5]`, mask row `[1, 0]`. -/
theorem masked_softmax_valid_row_spec_witness :
    (((masked_softmax2 [[0, 5]] [[1, 0]]).2).getD 0 []).sum = 1 ∧
    (((masked_softmax2 [[0, 5]] [[1, 0]]).2).getD 0 []).getD 1 0 ≤ numZeroBound ∧
    (((masked_softmax2 [[0, 5]] [[1, 0]]).1).getD 0 []).getD 0 0 = 0 := by
  have h := masked_softmax_valid_row_spec [[0, 5]] [[1, 0]] 0
    (by norm_num) (by norm_num) (by simp)
    ⟨0, by simp, by simp⟩
    (by intro x hx; simp at hx; rcases hx with rfl | rfl <;> norm_num)
  obtain ⟨h1, h2, h3⟩ := h
  refine ⟨h1, h2 1 (by simp) (by simp), ?_⟩
  have := h3 0 (by simp) (by simp)
  simpa using this

/-! ### C2 -/

/-- C2 (amended): a row whose mask entries are all 0 yields the plain
softmax of the original logits (the uniform `-1e30` shift cancels), a full
probability distribution summing to 1 — uniform only when the logits are
equal, and never near zero. -/
theorem masked_softmax_all_masked_row (logits : List ℝ) (mask : List ℕ)
    (hlen : logits.length = mask.length) (hne : logits ≠ [])
    (hall : ∀ m ∈ mask, m = 0) :
    (masked_softmax logits mask).2 = softmaxRow logits ∧
    ((masked_softmax logits mask).2).sum = 1 := by
  refine ⟨masked_softmax_all_masked logits mask hlen hall, ?_⟩
  exact masked_softmax_sum logits mask hlen hne

/-- Witness for C2 (amended) at logits `[0, 0]`, mask `[0, 0]`. -/
theorem masked_softmax_all_masked_row_witness :
    (masked_softmax [0, 0] [0, 0]).2 = softmaxRow [0, 0] ∧
    ((masked_softmax [0, 0] [0, 0]).2).sum = 1 :=
  masked_softmax_all_masked_row [0, 0] [0, 0] (by simp) (by simp)
    (by intro m hm; simpa using hm)

/-- Counterexample to C2 as stated: for the all-masked row with logits
`[0, 0]` the output is `[1/2, 1/2]` — a full uniform distribution whose
entries are `1/2`, not a near-zero output. -/
theorem masked_softmax_all_masked_not_near_zero :
    (masked_softmax [0, 0] [0, 0]).2 = [1 / 2, 1 / 2] ∧
    ¬ ((1:ℝ) / 2 ≤ numZeroBound) := by
  refine ⟨masked_softmax_zero_row, ?_⟩
  intro hle
  have := numZeroBound_lt_half
  linarith

/-! ### C3 -/

/-- C3: the claim (and the spec's error-handling section) requires the
encoder constructor to fail fast on an unsupported cell family; the code
instead returns normally from `__init__` with both cell lists empty and no
validation whatsoever (`code/modules.py` lines 52-61 have no else branch and
raise nothing).  This theorem evaluates the constructor at the failing input
`mode = "RNN"`. -/
theorem rnnEncoder_no_mode_validation :
    (RNNEncoder.init 200 1 1 "RNN" none).rnn_cells_fw = [] ∧
    (RNNEncoder.init 200 1 1 "RNN" none).rnn_cells_bw = [] := by
  constructor <;> simp [RNNEncoder.init, cellsFor]

/-! ### C9 -/

/-- C9: for any mode other than "GRU" and "LSTM" the constructor succeeds
with both cell lists empty, and `build_graph` with `num_layers = 1` then
fails (the `self.rnn_cells_fw[0]` access on the empty list, modelled as
`Option.none`); the error surfaces only at graph-build time. -/
theorem rnnEncoder_invalid_mode_fails_at_build
    (hidden : ℕ) (keep : ℝ) (mode : String) (name : Option String)
    (hm1 : mode ≠ "GRU") (hm2 : mode ≠ "LSTM")
    (cellStep : WrappedCell → CellStep) (cellState0 : WrappedCell → List ℝ)
    (inputs : List (List ℝ)) (masks : List ℕ)
    (noiseF noiseB : ℕ → ℕ → ℕ → ℝ) (noiseOut : ℕ → ℕ → ℝ) :
    (RNNEncoder.init hidden keep 1 mode name).rnn_cells_fw = [] ∧
    (RNNEncoder.init hidden keep 1 mode name).rnn_cells_bw = [] ∧
    RNNEncoder.build_graph (RNNEncoder.init hidden keep 1 mode name)
      cellStep cellState0 inputs masks noiseF noiseB noiseOut = none := by
  have hc : cellsFor mode hidden keep 1 = [] := by
    rw [cellsFor, if_neg hm1, if_neg hm2]
  refine ⟨?_, ?_, ?_⟩ <;>
    simp [RNNEncoder.init, RNNEncoder.build_graph, hc]

/-- Witness for C9 at mode "RNN". -/
theorem rnnEncoder_invalid_mode_fails_at_build_witness :
    (RNNEncoder.init 5 1 1 "RNN" none).rnn_cells_fw = [] ∧
    (RNNEncoder.init 5 1 1 "RNN" none).rnn_cells_bw = [] ∧
    RNNEncoder.build_graph (RNNEncoder.init 5 1 1 "RNN" none)
      (fun _ s _ => (s, s)) (fun _ => [0]) [[1]] [1]
      (fun _ _ _ => 0) (fun _ _ _ => 0) (fun _ _ => 0) = none :=
  rnnEncoder_invalid_mode_fails_at_build 5 1 "RNN" none
    (by decide) (by decide) (fun _ s _ => (s, s)) (fun _ => [0]) [[1]] [1]
    (fun _ _ _ => 0) (fun _ _ _ => 0) (fun _ _ => 0)

/-! ### C8 -/

lemma cellsFor_keep (mode : String) (h : ℕ) (k : ℝ) (n : ℕ) :
    ∀ c ∈ cellsFor mode h k n, c.input_keep_prob = k := by
  intro c hc
  rw [cellsFor] at hc
  split_ifs at hc <;>
    first
    | (rw [List.eq_of_mem_replicate hc])
    | simp at hc

lemma biLayer_keep_one (stepF stepB : CellStep) (s0F s0B : List ℝ) (h : ℕ)
    (nF1 nB1 nF2 nB2 : ℕ → ℕ → ℝ) (inputs : List (List ℝ)) (len : ℕ)
    (h1 : Uniform01M nF1) (h2 : Uniform01M nB1)
    (h3 : Uniform01M nF2) (h4 : Uniform01M nB2) :
    biLayer stepF stepB s0F s0B h 1 1 nF1 nB1 inputs len =
    biLayer stepF stepB s0F s0B h 1 1 nF2 nB2 inputs len := by
  unfold biLayer
  rw [dropoutMatN_one _ _ h1, dropoutMatN_one _ _ h2,
      dropoutMatN_one _ _ h3, dropoutMatN_one _ _ h4]

lemma stackBi_noise_indep (cellStep : WrappedCell → CellStep)
    (cellState0 : WrappedCell → List ℝ) (h len : ℕ) :
    ∀ (cells : List (WrappedCell × WrappedCell))
      (nF1 nB1 nF2 nB2 : ℕ → ℕ → ℕ → ℝ) (prev : List (List ℝ)),
    (∀ p ∈ cells, p.1.input_keep_prob = 1 ∧ p.2.input_keep_prob = 1) →
    Uniform01T nF1 → Uniform01T nB1 → Uniform01T nF2 → Uniform01T nB2 →
    stackBi cellStep cellState0 h len cells nF1 nB1 prev =
    stackBi cellStep cellState0 h len cells nF2 nB2 prev := by
  intro cells
  induction cells with
  | nil => intro _ _ _ _ _ _ _ _ _ _; rfl
  | cons p rest ih =>
    intro nF1 nB1 nF2 nB2 prev hkeep hF1 hB1 hF2 hB2
    obtain ⟨cf, cb⟩ := p
    have hk := hkeep (cf, cb) (List.mem_cons_self _ _)
    simp only [stackBi]
    rw [hk.1, hk.2]
    rw [biLayer_keep_one (cellStep cf) (cellStep cb) (cellState0 cf)
      (cellState0 cb) h (nF1 0) (nB1 0) (nF2 0) (nB2 0) prev len
      (hF1 0) (hB1 0) (hF2 0) (hB2 0)]
    exact ih (fun l => nF1 (l + 1)) (fun l => nB1 (l + 1))
      (fun l => nF2 (l + 1)) (fun l => nB2 (l + 1)) _
      (fun q hq => hkeep q (List.mem_cons_of_mem _ hq))
      (fun l => hF1 (l + 1)) (fun l => hB1 (l + 1))
      (fun l => hF2 (l + 1)) (fun l => hB2 (l + 1))

/-- C8: with keep-probability 1, BasicAttn, SelfAttn, BidirectionAttn and
the RNNEncoder are deterministic: their outputs do not depend on the dropout
noise stream, for any inputs, learned parameters and (for the encoder) any
recurrent-cell semantics. -/
theorem modules_deterministic_at_keep_one :
    (∀ (d : ℕ) (values : List (List ℝ)) (values_mask : List ℕ)
        (keys : List (List ℝ)) (n1 n2 : ℕ → ℕ → ℝ),
        Uniform01M n1 → Uniform01M n2 →
        BasicAttn.build_graph 1 d values values_mask keys n1 =
        BasicAttn.build_graph 1 d values values_mask keys n2) ∧
    (∀ (hs as : ℕ) (W1 W2 : List (List ℝ)) (v : List ℝ)
        (contexts : List (List ℝ)) (cmask : List ℕ) (n1 n2 : ℕ → ℕ → ℝ),
        Uniform01M n1 → Uniform01M n2 →
        SelfAttn.build_graph 1 hs as W1 W2 v contexts cmask n1 =
        SelfAttn.build_graph 1 hs as W1 W2 v contexts cmask n2) ∧
    (∀ (H : ℕ) (w1 w2 w3 : List ℝ) (questions : List (List ℝ))
        (qmask : List ℕ) (contexts : List (List ℝ)) (cmask : List ℕ)
        (n1 n2 : ℕ → ℕ → ℝ),
        Uniform01M n1 → Uniform01M n2 →
        BidirectionAttn.build_graph 1 H w1 w2 w3 questions qmask contexts cmask n1 =
        BidirectionAttn.build_graph 1 H w1 w2 w3 questions qmask contexts cmask n2) ∧
    (∀ (hidden L : ℕ) (mode : String) (name : Option String)
        (cellStep : WrappedCell → CellStep) (cellState0 : WrappedCell → List ℝ)
        (inputs : List (List ℝ)) (masks : List ℕ)
        (nF1 nB1 nF2 nB2 : ℕ → ℕ → ℕ → ℝ) (nO1 nO2 : ℕ → ℕ → ℝ),
        Uniform01T nF1 → Uniform01T nB1 → Uniform01M nO1 →
        Uniform01T nF2 → Uniform01T nB2 → Uniform01M nO2 →
        RNNEncoder.build_graph (RNNEncoder.init hidden 1 L mode name)
          cellStep cellState0 inputs masks nF1 nB1 nO1 =
        RNNEncoder.build_graph (RNNEncoder.init hidden 1 L mode name)
          cellStep cellState0 inputs masks nF2 nB2 nO2) := by
  refine ⟨?_, ?_, ?_, ?_⟩
  · intro d values values_mask keys n1 n2 h1 h2
    have e1 : ∀ x, dropoutMatN 1 n1 x = x := fun x => dropoutMatN_one n1 x h1
    have e2 : ∀ x, dropoutMatN 1 n2 x = x := fun x => dropoutMatN_one n2 x h2
    unfold BasicAttn.build_graph
    simp only [e1, e2]
  · intro hs as W1 W2 v contexts cmask n1 n2 h1 h2
    have e1 : ∀ x, dropoutMatN 1 n1 x = x := fun x => dropoutMatN_one n1 x h1
    have e2 : ∀ x, dropoutMatN 1 n2 x = x := fun x => dropoutMatN_one n2 x h2
    unfold SelfAttn.build_graph
    simp only [e1, e2]
  · intro H w1 w2 w3 questions qmask contexts cmask n1 n2 h1 h2
    have e1 : ∀ x, dropoutMatN 1 n1 x = x := fun x => dropoutMatN_one n1 x h1
    have e2 : ∀ x, dropoutMatN 1 n2 x = x := fun x => dropoutMatN_one n2 x h2
    unfold BidirectionAttn.build_graph
    simp only [e1, e2]
  · intro hidden L mode name cellStep cellState0 inputs masks
      nF1 nB1 nF2 nB2 nO1 nO2 hF1 hB1 hO1 hF2 hB2 hO2
    have eO1 : ∀ x, dropoutMatN 1 nO1 x = x := fun x => dropoutMatN_one nO1 x hO1
    have eO2 : ∀ x, dropoutMatN 1 nO2 x = x := fun x => dropoutMatN_one nO2 x hO2
    have hkeepcell : ∀ c ∈ (RNNEncoder.init hidden 1 L mode name).rnn_cells_fw,
        c.input_keep_prob = 1 := cellsFor_keep mode hidden 1 L
    have hkeepcellb : ∀ c ∈ (RNNEncoder.init hidden 1 L mode name).rnn_cells_bw,
        c.input_keep_prob = 1 := cellsFor_keep mode hidden 1 L
    unfold RNNEncoder.build_graph
    by_cases hL : (RNNEncoder.init hidden 1 L mode name).num_layers = 1
    · rw [if_pos hL, if_pos hL]
      cases hf : (RNNEncoder.init hidden 1 L mode name).rnn_cells_fw[0]? with
      | none =>
        cases hb : (RNNEncoder.init hidden 1 L mode name).rnn_cells_bw[0]? <;> rfl
      | some cf =>
        cases hb : (RNNEncoder.init hidden 1 L mode name).rnn_cells_bw[0]? with
        | none => rfl
        | some cb =>
          have hcf : cf.input_keep_prob = 1 :=
            hkeepcell cf (mem_of_getElem?_eq hf)
          have hcb : cb.input_keep_prob = 1 :=
            hkeepcellb cb (mem_of_getElem?_eq hb)
          simp only [hcf, hcb]
          rw [biLayer_keep_one (cellStep cf) (cellStep cb) (cellState0 cf)
            (cellState0 cb) _ (nF1 0) (nB1 0) (nF2 0) (nB2 0) inputs masks.sum
            (hF1 0) (hB1 0) (hF2 0) (hB2 0)]
          rw [show (RNNEncoder.init hidden 1 L mode name).keep_prob = 1 from rfl]
          simp only [eO1, eO2]
    · rw [if_neg hL, if_neg hL]
      have hzip : ∀ p ∈ (RNNEncoder.init hidden 1 L mode name).rnn_cells_fw.zip
          (RNNEncoder.init hidden 1 L mode name).rnn_cells_bw,
          p.1.input_keep_prob = 1 ∧ p.2.input_keep_prob = 1 := by
        intro p hp
        obtain ⟨h1, h2⟩ := List.of_mem_zip hp
        exact ⟨hkeepcell p.1 h1, hkeepcellb p.2 h2⟩
      rw [stackBi_noise_indep cellStep cellState0 _ _ _ nF1 nB1 nF2 nB2 inputs
        hzip hF1 hB1 hF2 hB2]
      rw [show (RNNEncoder.init hidden 1 L mode name).keep_prob = 1 from rfl]
      simp only [eO1, eO2]

/-- Witness for C8: the four equalities at tiny concrete inputs with noise
streams `0` and `1/2`. -/
theorem modules_deterministic_at_keep_one_witness :
    (BasicAttn.build_graph 1 1 [[1]] [1] [[1]] (fun _ _ => 0) =
     BasicAttn.build_graph 1 1 [[1]] [1] [[1]] (fun _ _ => 1 / 2)) ∧
    (SelfAttn.build_graph 1 1 1 [[0]] [[0]] [0] [[1]] [1] (fun _ _ => 0) =
     SelfAttn.build_graph 1 1 1 [[0]] [[0]] [0] [[1]] [1] (fun _ _ => 1 / 2)) ∧
    (BidirectionAttn.build_graph 1 1 [0, 0] [0, 0] [0, 0] [[1, 1]] [1]
        [[1, 1]] [1] (fun _ _ => 0) =
     BidirectionAttn.build_graph 1 1 [0, 0] [0, 0] [0, 0] [[1, 1]] [1]
        [[1, 1]] [1] (fun _ _ => 1 / 2)) ∧
    (RNNEncoder.build_graph (RNNEncoder.init 1 1 1 "GRU" none)
        (fun _ s _ => (s, s)) (fun _ => [0]) [[1]] [1]
        (fun _ _ _ => 0) (fun _ _ _ => 0) (fun _ _ => 0) =
     RNNEncoder.build_graph (RNNEncoder.init 1 1 1 "GRU" none)
        (fun _ s _ => (s, s)) (fun _ => [0]) [[1]] [1]
        (fun _ _ _ => 1 / 2) (fun _ _ _ => 1 / 2) (fun _ _ => 1 / 2)) := by
  have hu0 : Uniform01M (fun _ _ => (0:ℝ)) := by
    intro i j
    norm_num
  have hu2 : Uniform01M (fun _ _ => (1:ℝ) / 2) := by
    intro i j
    norm_num
  have ht0 : Uniform01T (fun _ _ _ => (0:ℝ)) := fun _ => hu0
  have ht2 : Uniform01T (fun _ _ _ => (1:ℝ) / 2) := fun _ => hu2
  obtain ⟨h1, h2, h3, h4⟩ := modules_deterministic_at_keep_one
  exact ⟨h1 1 [[1]] [1] [[1]] _ _ hu0 hu2,
         h2 1 1 [[0]] [[0]] [0] [[1]] [1] _ _ hu0 hu2,
         h3 1 [0, 0] [0, 0] [0, 0] [[1, 1]] [1] [[1, 1]] [1] _ _ hu0 hu2,
         h4 1 1 "GRU" none (fun _ s _ => (s, s)) (fun _ => [0]) [[1]] [1]
           _ _ _ _ _ _ ht0 ht0 hu0 ht2 ht2 hu2⟩

/-! ### C4 -/

/-- C4: every entry of the similarity matrix is the trilinear score
`⟨w1, c_i⟩ + ⟨w2, q_j⟩ + ⟨w3 ⊙ c_i, q_j⟩`, and the matrix has shape
(batch, N, M). -/
theorem bidaf_similarity_entries (w1 w2 w3 : List ℝ)
    (questionsB contextsB : List (List (List ℝ))) (b i j : ℕ)
    (hq : questionsB.length = contextsB.length)
    (hb : b < contextsB.length)
    (hi : i < (contextsB.getD b []).length)
    (hj : j < (questionsB.getD b []).length) :
    (similarity_batch w1 w2 w3 questionsB contextsB).length = contextsB.length ∧
    ((similarity_batch w1 w2 w3 questionsB contextsB).getD b []).length =
      (contextsB.getD b []).length ∧
    (((similarity_batch w1 w2 w3 questionsB contextsB).getD b []).getD i []).length =
      (questionsB.getD b []).length ∧
    (((similarity_batch w1 w2 w3 questionsB contextsB).getD b []).getD i []).getD j 0 =
      dot w1 ((contextsB.getD b []).getD i []) +
      dot w2 ((questionsB.getD b []).getD j []) +
      dot (List.zipWith (· * ·) w3 ((contextsB.getD b []).getD i []))
        ((questionsB.getD b []).getD j []) := by
  have hblen : (similarity_batch w1 w2 w3 questionsB contextsB).length =
      contextsB.length := by
    simp [similarity_batch, hq]
  have hbq : b < questionsB.length := by omega
  have hbatch : (similarity_batch w1 w2 w3 questionsB contextsB).getD b [] =
      BidirectionAttn.build_similarity_matrix w1 w2 w3
        (questionsB.getD b []) (contextsB.getD b []) := by
    rw [getD_eq _ _ _ (by omega), getD_eq _ _ _ hb, getD_eq _ _ _ hbq]
    simp [similarity_batch]
  refine ⟨hblen, ?_, ?_, ?_⟩
  · rw [hbatch, simMatrix_length]
  · rw [hbatch, simMatrix_row_length _ _ _ _ _ i hi]
  · rw [hbatch, simMatrix_getD _ _ _ _ _ i hi]
    have hmap : ((questionsB.getD b []).map (fun qj =>
        dot ((contextsB.getD b []).getD i []) w1 +
        dot (List.zipWith (· * ·) ((contextsB.getD b []).getD i []) w3) qj +
        dot qj w2)).getD j 0 =
        dot ((contextsB.getD b []).getD i []) w1 +
        dot (List.zipWith (· * ·) ((contextsB.getD b []).getD i []) w3)
          ((questionsB.getD b []).getD j []) +
        dot ((questionsB.getD b []).getD j []) w2 := by
      rw [getD_eq _ _ _ (by simpa using hj), getD_eq _ _ _ hj]
      simp [List.getElem_map]
    rw [hmap, dot_comm w1, dot_comm w2, zipWith_mul_comm w3]
    ring

/-- Witness for C4 at a concrete batch. -/
theorem bidaf_similarity_entries_witness :
    (similarity_batch [1, 0] [0, 1] [1, 1] [[[2, 3]]] [[[1, 1]]]).length = 1 ∧
    ((similarity_batch [1, 0] [0, 1] [1, 1] [[[2, 3]]] [[[1, 1]]]).getD 0 []).length = 1 ∧
    (((similarity_batch [1, 0] [0, 1] [1, 1] [[[2, 3]]] [[[1, 1]]]).getD 0
      []).getD 0 []).length = 1 ∧
    (((similarity_batch [1, 0] [0, 1] [1, 1] [[[2, 3]]] [[[1, 1]]]).getD 0
      []).getD 0 []).getD 0 0 =
      dot [1, 0] [1, 1] + dot [0, 1] [2, 3] +
      dot (List.zipWith (· * ·) [1, 1] [1, 1]) [2, 3] := by
  have h := bidaf_similarity_entries [1, 0] [0, 1] [1, 1] [[[2, 3]]] [[[1, 1]]]
    0 0 0 (by simp) (by simp) (by simp) (by simp)
  obtain ⟨h1, h2, h3, h4⟩ := h
  refine ⟨h1, h2, h3, ?_⟩
  rw [h4]
  simp

/-! ### C10 -/

/-- C10: every row of the alpha distribution returned by
`BidirectionAttn.build_graph` sums to 1 over the question axis — including
rows of padded context positions whose similarity rows are entirely masked —
because the softmax inside `masked_softmax` normalizes every nonempty row to
sum 1 regardless of the mask, so the in-graph assertion is valid. -/
theorem bidaf_alpha_rows_sum_one (keep : ℝ) (H : ℕ) (w1 w2 w3 : List ℝ)
    (questions : List (List ℝ)) (qmask : List ℕ)
    (contexts : List (List ℝ)) (cmask : List ℕ) (noise : ℕ → ℕ → ℝ)
    (hq : questions ≠ []) (hqm : qmask.length = questions.length)
    (hcm : cmask.length = contexts.length)
    (i : ℕ) (hi : i < contexts.length) :
    (((BidirectionAttn.build_graph keep H w1 w2 w3 questions qmask contexts
        cmask noise).1).getD i []).sum = 1 := by
  have halpha : (BidirectionAttn.build_graph keep H w1 w2 w3 questions qmask
      contexts cmask noise).1 =
      (masked_softmax2
        (BidirectionAttn.build_similarity_matrix w1 w2 w3 questions contexts)
        (bidafSMask cmask qmask)).2 := rfl
  rw [halpha]
  rw [masked_softmax2_snd_getD _ _ i (by rw [simMatrix_length]; exact hi)
    (by rw [bidafSMask_length]; omega)]
  apply masked_softmax_sum
  · rw [simMatrix_row_length _ _ _ _ _ i hi,
      bidafSMask_getD _ _ i (by omega)]
    simp [hqm]
  · intro hcon
    have hlen := simMatrix_row_length w1 w2 w3 questions contexts i hi
    rw [hcon] at hlen
    have h0 : questions.length = 0 := by simpa using hlen.symm
    exact hq (List.eq_nil_of_length_eq_zero h0)

/-- Witness for C10 at a padded context position (its mask row is all 0). -/
theorem bidaf_alpha_rows_sum_one_witness :
    (((BidirectionAttn.build_graph 1 1 [0, 0] [0, 0] [0, 0] [[0, 0]] [1]
        [[0, 0]] [0] (fun _ _ => 0)).1).getD 0 []).sum = 1 :=
  bidaf_alpha_rows_sum_one 1 1 [0, 0] [0, 0] [0, 0] [[0, 0]] [1] [[0, 0]] [0]
    (fun _ _ => 0) (by simp) (by simp) (by simp) 0 (by simp)

/-! #### BasicAttn batch plumbing -/

lemma basicAttn_batch_fst_length (keep : ℝ) (d : ℕ)
    (vB : List (List (List ℝ))) (mB : List (List ℕ)) (kB : List (List (List ℝ)))
    (n : ℕ → ℕ → ℕ → ℝ) (hm : mB.length = vB.length) (hk : kB.length = vB.length) :
    ((BasicAttn.build_graph_batch keep d vB mB kB n).1).length = vB.length := by
  simp [BasicAttn.build_graph_batch, idxMap, hm, hk]

lemma basicAttn_batch_fst_getD (keep : ℝ) (d : ℕ)
    (vB : List (List (List ℝ))) (mB : List (List ℕ)) (kB : List (List (List ℝ)))
    (n : ℕ → ℕ → ℕ → ℝ) (b : ℕ) (hb : b < vB.length)
    (hm : mB.length = vB.length) (hk : kB.length = vB.length) :
    ((BasicAttn.build_graph_batch keep d vB mB kB n).1).getD b [] =
      (BasicAttn.build_graph keep d (vB.getD b []) (mB.getD b [])
        (kB.getD b []) (n b)).1 := by
  have hlen : b < ((BasicAttn.build_graph_batch keep d vB mB kB n).1).length := by
    rw [basicAttn_batch_fst_length keep d vB mB kB n hm hk]
    exact hb
  rw [getD_eq _ _ _ hlen, getD_eq _ _ _ hb, getD_eq _ _ _ (by omega : b < mB.length),
    getD_eq _ _ _ (by omega : b < kB.length)]
  simp only [BasicAttn.build_graph_batch, List.getElem_map, idxMap,
    List.getElem_zipWith, List.getElem_range, List.getElem_zip]

lemma basicAttn_batch_snd_getD (keep : ℝ) (d : ℕ)
    (vB : List (List (List ℝ))) (mB : List (List ℕ)) (kB : List (List (List ℝ)))
    (n : ℕ → ℕ → ℕ → ℝ) (b : ℕ) (hb : b < vB.length)
    (hm : mB.length = vB.length) (hk : kB.length = vB.length) :
    ((BasicAttn.build_graph_batch keep d vB mB kB n).2).getD b [] =
      (BasicAttn.build_graph keep d (vB.getD b []) (mB.getD b [])
        (kB.getD b []) (n b)).2 := by
  have hlen : b < ((BasicAttn.build_graph_batch keep d vB mB kB n).2).length := by
    have e : ((BasicAttn.build_graph_batch keep d vB mB kB n).2).length =
        vB.length := by
      simp [BasicAttn.build_graph_batch, idxMap, hm, hk]
    omega
  rw [getD_eq _ _ _ hlen, getD_eq _ _ _ hb, getD_eq _ _ _ (by omega : b < mB.length),
    getD_eq _ _ _ (by omega : b < kB.length)]
  simp only [BasicAttn.build_graph_batch, List.getElem_map, idxMap,
    List.getElem_zipWith, List.getElem_range, List.getElem_zip]

/-- At keep-probability 1 the returned attention output is exactly the
weighted sum `attn_dist · values`. -/
lemma basicAttn_output_one (d : ℕ) (values : List (List ℝ)) (vmask : List ℕ)
    (keys : List (List ℝ)) (n : ℕ → ℕ → ℝ) (hU : Uniform01M n) :
    (BasicAttn.build_graph 1 d values vmask keys n).2 =
      matMul ((BasicAttn.build_graph 1 d values vmask keys n).1) values d := by
  show dropoutMatN 1 n (matMul _ values d) = _
  rw [dropoutMatN_one _ _ hU]
  rfl

/-! ### C6 -/

/-- C6 (amended): the pairwise mask is exactly the outer product of the 1-D
context mask with itself (entry (i,j) valid only when both positions are
real), and every real (mask=1) position's attention row assigns numerically
zero weight to masked positions; however the row OF a masked position is a
degenerate all-masked softmax summing to 1, not zero (see the
counterexample). -/
theorem selfAttn_mask_and_padding (keep : ℝ) (hs C : ℕ)
    (W1 W2 : List (List ℝ)) (v : List ℝ) (contexts : List (List ℝ))
    (cmask : List ℕ) (noise : ℕ → ℕ → ℝ)
    (hbin : ∀ m ∈ cmask, m = 0 ∨ m = 1)
    (hlen : cmask.length = contexts.length)
    (hv : l1norm v ≤ (10:ℝ)^15) :
    selfAttnMask cmask = outerAndMask cmask ∧
    (∀ i j, i < contexts.length → j < contexts.length →
      cmask.getD i 0 = 1 → cmask.getD j 0 = 0 →
      (((SelfAttn.build_graph keep hs C W1 W2 v contexts cmask noise).1).getD
        i []).getD j 0 ≤ numZeroBound) := by
  constructor
  · unfold selfAttnMask outerAndMask
    apply List.map_congr_left
    intro mi hmi
    apply List.map_congr_left
    intro mj hmj
    rcases hbin mi hmi with rfl | rfl <;> rcases hbin mj hmj with rfl | rfl <;> simp
  · intro i j hi hj h1 h0
    have hfst : (SelfAttn.build_graph keep hs C W1 W2 v contexts cmask noise).1 =
        (masked_softmax2 (selfAttnScores W1 W2 v C contexts)
          (selfAttnMask cmask)).2 := rfl
    rw [hfst]
    rw [masked_softmax2_snd_getD _ _ i
      (by simpa [selfAttnScores_length] using hi)
      (by rw [selfAttnMask_length]; omega)]
    have hEi := selfAttnScores_row_length W1 W2 v C contexts i hi
    have hsup := masked_softmax_masked_le
      ((selfAttnScores W1 W2 v C contexts).getD i [])
      ((selfAttnMask cmask).getD i []) j i
      (by rw [hEi, selfAttnMask_getD cmask i (by omega)]
          simp [hlen])
      (by rw [hEi]; exact hj)
      (by rw [hEi]; exact hi)
      (by rw [selfAttnMask_entry cmask i j (by omega) (by omega), h1, h0])
      (by rw [selfAttnMask_entry cmask i i (by omega) (by omega), h1])
    refine hsup.trans (exp_suppressed_le_numZeroBound _ _ ?_ ?_)
    · exact (selfAttnScores_abs_le W1 W2 v C contexts i j hi hj).trans hv
    · exact (selfAttnScores_abs_le W1 W2 v C contexts i i hi hi).trans hv

/-- Witness for C6 (amended): mask `[1, 0]`, two context positions. -/
theorem selfAttn_mask_and_padding_witness :
    selfAttnMask [1, 0] = outerAndMask [1, 0] ∧
    (((SelfAttn.build_graph 1 1 1 [[0]] [[0]] [0] [[0], [0]] [1, 0]
        (fun _ _ => 0)).1).getD 0 []).getD 1 0 ≤ numZeroBound := by
  obtain ⟨h1, h2⟩ := selfAttn_mask_and_padding 1 1 1 [[0]] [[0]] [0]
    [[0], [0]] [1, 0] (fun _ _ => 0)
    (by intro m hm
        simp at hm
        rcases hm with rfl | rfl
        · right; rfl
        · left; rfl)
    (by simp)
    (by norm_num [l1norm])
  exact ⟨h1, h2 0 1 (by norm_num) (by norm_num) (by simp) (by simp)⟩

/-- Counterexample to C6 as stated: with mask `[1, 0]` and all-zero
parameters, the attention row of the masked position 1 is `[1/2, 1/2]` — the
masked position receives and contributes weight `1/2` in its own row, far
from numerically zero. -/
theorem selfAttn_masked_row_not_zero :
    ((SelfAttn.build_graph 1 1 1 [[0]] [[0]] [0] [[0], [0]] [1, 0]
        (fun _ _ => 0)).1).getD 1 [] = [1 / 2, 1 / 2] ∧
    ¬ ((1:ℝ) / 2 ≤ numZeroBound) := by
  constructor
  · have hfst : (SelfAttn.build_graph 1 1 1 [[0]] [[0]] [0] [[0], [0]] [1, 0]
        (fun _ _ => 0)).1 =
        (masked_softmax2 (selfAttnScores [[0]] [[0]] [0] 1 [[0], [0]])
          (selfAttnMask [1, 0])).2 := rfl
    have hE : selfAttnScores [[0]] [[0]] [0] 1 [[0], [0]] = [[0, 0], [0, 0]] := by
      simp [selfAttnScores, matMul, matCol, dot]
    have hM : selfAttnMask [1, 0] = [[1, 0], [0, 0]] := by
      simp [selfAttnMask]
    rw [hfst, hE, hM]
    rw [masked_softmax2_snd_getD _ _ 1 (by simp) (by simp)]
    simp only [List.getD_cons_succ, List.getD_cons_zero]
    exact masked_softmax_zero_row
  · intro hle
    have := numZeroBound_lt_half
    linarith

/-! ### C7 -/

/-- C7: at inference (keep-probability 1), for every batch of values, keys
and a values mask with at least one valid position per batch element (and
dot-product logits of non-astronomic magnitude), BasicAttn returns a
distribution of shape (batch, num_keys, num_values) whose rows each sum to 1
and assign numerically zero weight to padded value positions, and an output
equal to the distribution-weighted sum of the values. -/
theorem basicAttn_distribution_spec (d : ℕ)
    (valuesB : List (List (List ℝ))) (values_maskB : List (List ℕ))
    (keysB : List (List (List ℝ))) (noise : ℕ → ℕ → ℕ → ℝ)
    (hm : values_maskB.length = valuesB.length)
    (hk : keysB.length = valuesB.length)
    (hU : Uniform01T noise)
    (hrow : ∀ b, b < valuesB.length →
      (values_maskB.getD b []).length = (valuesB.getD b []).length)
    (hvalid : ∀ b, b < valuesB.length → ∃ jv,
      jv < (values_maskB.getD b []).length ∧
      (values_maskB.getD b []).getD jv 0 = 1)
    (hbound : ∀ b, b < valuesB.length →
      ∀ row ∈ basicAttnLogits (valuesB.getD b []) (keysB.getD b []),
      ∀ x ∈ row, |x| ≤ (10:ℝ)^15) :
    ((BasicAttn.build_graph_batch 1 d valuesB values_maskB keysB noise).1).length
      = valuesB.length ∧
    ∀ b, b < valuesB.length →
      (((BasicAttn.build_graph_batch 1 d valuesB values_maskB keysB
        noise).1).getD b []).length = (keysB.getD b []).length ∧
      ∀ k, k < (keysB.getD b []).length →
        ((((BasicAttn.build_graph_batch 1 d valuesB values_maskB keysB
          noise).1).getD b []).getD k []).length = (valuesB.getD b []).length ∧
        ((((BasicAttn.build_graph_batch 1 d valuesB values_maskB keysB
          noise).1).getD b []).getD k []).sum = 1 ∧
        (∀ j, j < (values_maskB.getD b []).length →
          (values_maskB.getD b []).getD j 0 = 0 →
          ((((BasicAttn.build_graph_batch 1 d valuesB values_maskB keysB
            noise).1).getD b []).getD k []).getD j 0 ≤ numZeroBound) ∧
        (∀ dd, dd < d →
          ((((BasicAttn.build_graph_batch 1 d valuesB values_maskB keysB
            noise).2).getD b []).getD k []).getD dd 0 =
            ∑ j ∈ Finset.range (valuesB.getD b []).length,
              ((((BasicAttn.build_graph_batch 1 d valuesB values_maskB keysB
                noise).1).getD b []).getD k []).getD j 0 *
              ((valuesB.getD b []).getD j []).getD dd 0) := by
  refine ⟨basicAttn_batch_fst_length 1 d _ _ _ _ hm hk, ?_⟩
  intro b hb
  have hmb := hrow b hb
  have hfst := basicAttn_batch_fst_getD 1 d valuesB values_maskB keysB noise b hb hm hk
  have hsnd := basicAttn_batch_snd_getD 1 d valuesB values_maskB keysB noise b hb hm hk
  have hdlen : ((BasicAttn.build_graph 1 d (valuesB.getD b [])
      (values_maskB.getD b []) (keysB.getD b []) (noise b)).1).length =
      (keysB.getD b []).length := by
    rw [basicAttn_fst]
    simp [basicAttnLogits_length]
  refine ⟨by rw [hfst]; exact hdlen, ?_⟩
  intro k hkk
  have hdist := basicAttn_dist_getD 1 d (valuesB.getD b [])
    (values_maskB.getD b []) (keysB.getD b []) (noise b) k hkk
  have hloglen : ((valuesB.getD b []).map
      (fun v => dot ((keysB.getD b []).getD k []) v)).length =
      (valuesB.getD b []).length := by simp
  have hvne : (valuesB.getD b []).map
      (fun v => dot ((keysB.getD b []).getD k []) v) ≠ [] := by
    intro hcon
    obtain ⟨jv, hjv, _⟩ := hvalid b hb
    have h0 : ((valuesB.getD b []).map
        (fun v => dot ((keysB.getD b []).getD k []) v)).length = 0 := by
      rw [hcon]; rfl
    omega
  have hlogmem : ∀ j, j < (valuesB.getD b []).length →
      ((valuesB.getD b []).map
        (fun v => dot ((keysB.getD b []).getD k []) v)).getD j 0 ∈
      (valuesB.getD b []).map (fun v => dot ((keysB.getD b []).getD k []) v) := by
    intro j hj
    have hj2 : j < ((valuesB.getD b []).map
        (fun v => dot ((keysB.getD b []).getD k []) v)).length := by
      simpa using hj
    rw [getD_eq _ _ _ hj2]
    exact List.getElem_mem hj2
  have hrowmem : (valuesB.getD b []).map
      (fun v => dot ((keysB.getD b []).getD k []) v) ∈
      basicAttnLogits (valuesB.getD b []) (keysB.getD b []) := by
    have hkk2 : k < (basicAttnLogits (valuesB.getD b [])
        (keysB.getD b [])).length := by
      rw [basicAttnLogits_length]
      exact hkk
    rw [← basicAttnLogits_getD _ _ k hkk, getD_eq _ _ _ hkk2]
    exact List.getElem_mem hkk2
  refine ⟨?_, ?_, ?_, ?_⟩
  · rw [hfst, hdist, masked_softmax_snd_length]
    omega
  · rw [hfst, hdist]
    exact masked_softmax_sum _ _ (by omega) hvne
  · intro j hj hj0
    obtain ⟨jv, hjv, hjv1⟩ := hvalid b hb
    rw [hfst, hdist]
    have hle := masked_softmax_masked_le
      ((valuesB.getD b []).map (fun v => dot ((keysB.getD b []).getD k []) v))
      (values_maskB.getD b []) j jv (by rw [hloglen]; omega)
      (by rw [hloglen]; omega) (by rw [hloglen]; omega) hj0 hjv1
    refine hle.trans (exp_suppressed_le_numZeroBound _ _ ?_ ?_)
    · exact hbound b hb _ hrowmem _ (hlogmem j (by omega))
    · exact hbound b hb _ hrowmem _ (hlogmem jv (by omega))
  · intro dd hdd
    rw [hsnd, basicAttn_output_one _ _ _ _ _ (hU b)]
    rw [matMul_getD _ _ d k (by omega)]
    have hdd2 : dd < ((List.range d).map (fun j =>
        dot (((BasicAttn.build_graph 1 d (valuesB.getD b [])
          (values_maskB.getD b []) (keysB.getD b []) (noise b)).1).getD k [])
          (matCol (valuesB.getD b []) j))).length := by
      simpa using hdd
    rw [getD_eq _ _ _ hdd2]
    simp only [List.getElem_map, List.getElem_range]
    have hrl : (((BasicAttn.build_graph 1 d (valuesB.getD b [])
        (values_maskB.getD b []) (keysB.getD b []) (noise b)).1).getD k
        []).length = (valuesB.getD b []).length := by
      rw [hdist, masked_softmax_snd_length]
      omega
    rw [dot_eq_sum _ _ (by rw [hrl, matCol_length]), hrl]
    apply Finset.sum_congr rfl
    intro j hjmem
    have hj : j < (valuesB.getD b []).length := Finset.mem_range.mp hjmem
    rw [matCol_getD _ _ _ hj, hfst]

/-- Witness for C7: `values_mask = [1,1,1,0]` (the spec's own example), four
zero value vectors, one zero key. -/
theorem basicAttn_distribution_spec_witness :
    ((BasicAttn.build_graph_batch 1 1 [[[0], [0], [0], [0]]] [[1, 1, 1, 0]]
      [[[0]]] (fun _ _ _ => 0)).1).length = 1 ∧
    ((((BasicAttn.build_graph_batch 1 1 [[[0], [0], [0], [0]]] [[1, 1, 1, 0]]
      [[[0]]] (fun _ _ _ => 0)).1).getD 0 []).getD 0 []).sum = 1 ∧
    ((((BasicAttn.build_graph_batch 1 1 [[[0], [0], [0], [0]]] [[1, 1, 1, 0]]
      [[[0]]] (fun _ _ _ => 0)).1).getD 0 []).getD 0 []).getD 3 0 ≤
      numZeroBound ∧
    ((((BasicAttn.build_graph_batch 1 1 [[[0], [0], [0], [0]]] [[1, 1, 1, 0]]
      [[[0]]] (fun _ _ _ => 0)).2).getD 0 []).getD 0 []).getD 0 0 =
      ∑ j ∈ Finset.range 4,
        ((((BasicAttn.build_graph_batch 1 1 [[[0], [0], [0], [0]]]
          [[1, 1, 1, 0]] [[[0]]] (fun _ _ _ => 0)).1).getD 0 []).getD 0
          []).getD j 0 *
        (([[0], [0], [0], [0]] : List (List ℝ)).getD j []).getD 0 0 := by
  have h := basicAttn_distribution_spec 1 [[[0], [0], [0], [0]]] [[1, 1, 1, 0]]
    [[[0]]] (fun _ _ _ => 0) (by simp) (by simp)
    (by intro l i j; norm_num)
    (by intro b hb
        have hb0 : b = 0 := by
          simp at hb
          omega
        subst hb0
        simp)
    (by intro b hb
        have hb0 : b = 0 := by
          simp at hb
          omega
        subst hb0
        exact ⟨0, by simp, by simp⟩)
    (by intro b hb row hrowm x hx
        have hb0 : b = 0 := by
          simp at hb
          omega
        subst hb0
        simp [basicAttnLogits, dot] at hrowm
        subst hrowm
        simp at hx
        rw [hx]
        norm_num)
  obtain ⟨h1, hper⟩ := h
  obtain ⟨h2, hK⟩ := hper 0 (by norm_num)
  obtain ⟨h3, h4, h5, h6⟩ := hK 0 (by simp)
  refine ⟨h1, h4, h5 3 (by simp) (by simp), ?_⟩
  have := h6 0 (by norm_num)
  simpa using this

/-! ### C5 -/

/-- C5: `beta` is the plain (unmasked) softmax, over the context axis, of
the per-context-position maximum of the *masked* similarity matrix over the
question axis (it sums to 1 over all context positions), and the
question-to-context contribution is the single beta-weighted context summary
of width 2H, tiled identically across all N context positions. -/
theorem bidaf_beta_and_q2c_tiling (keep : ℝ) (H : ℕ) (w1 w2 w3 : List ℝ)
    (questions : List (List ℝ)) (qmask : List ℕ)
    (contexts : List (List ℝ)) (cmask : List ℕ) (noise : ℕ → ℕ → ℝ)
    (hq : questions ≠ []) (hc : contexts ≠ [])
    (hqm : qmask.length = questions.length)
    (hcm : cmask.length = contexts.length) :
    (BidirectionAttn.build_graph keep H w1 w2 w3 questions qmask contexts
      cmask noise).2.1 =
      softmaxRow (((masked_softmax2
        (BidirectionAttn.build_similarity_matrix w1 w2 w3 questions contexts)
        (bidafSMask cmask qmask)).1).map rowMax) ∧
    ((BidirectionAttn.build_graph keep H w1 w2 w3 questions qmask contexts
      cmask noise).2.1).sum = 1 ∧
    (∀ i, i < contexts.length →
      (((masked_softmax2
        (BidirectionAttn.build_similarity_matrix w1 w2 w3 questions contexts)
        (bidafSMask cmask qmask)).1).map rowMax).getD i 0 ∈
        ((masked_softmax2
          (BidirectionAttn.build_similarity_matrix w1 w2 w3 questions contexts)
          (bidafSMask cmask qmask)).1).getD i [] ∧
      ∀ x ∈ ((masked_softmax2
          (BidirectionAttn.build_similarity_matrix w1 w2 w3 questions contexts)
          (bidafSMask cmask qmask)).1).getD i [],
        x ≤ (((masked_softmax2
          (BidirectionAttn.build_similarity_matrix w1 w2 w3 questions contexts)
          (bidafSMask cmask qmask)).1).map rowMax).getD i 0) ∧
    (∀ dd, dd < 2 * H →
      ((List.range (2 * H)).map (fun d' =>
        dot ((BidirectionAttn.build_graph keep H w1 w2 w3 questions qmask
          contexts cmask noise).2.1) (matCol contexts d'))).getD dd 0 =
        ∑ k ∈ Finset.range contexts.length,
          ((BidirectionAttn.build_graph keep H w1 w2 w3 questions qmask
            contexts cmask noise).2.1).getD k 0 *
          ((contexts.getD k []).getD dd 0)) ∧
    (∀ i, i < contexts.length →
      (List.replicate contexts.length ((List.range (2 * H)).map (fun d' =>
        dot ((BidirectionAttn.build_graph keep H w1 w2 w3 questions qmask
          contexts cmask noise).2.1) (matCol contexts d')))).getD i [] =
      (List.range (2 * H)).map (fun d' =>
        dot ((BidirectionAttn.build_graph keep H w1 w2 w3 questions qmask
          contexts cmask noise).2.1) (matCol contexts d'))) := by
  have ha : (BidirectionAttn.build_graph keep H w1 w2 w3 questions qmask
      contexts cmask noise).2.1 =
      softmaxRow (((masked_softmax2
        (BidirectionAttn.build_similarity_matrix w1 w2 w3 questions contexts)
        (bidafSMask cmask qmask)).1).map rowMax) := rfl
  have hSmlen : ((masked_softmax2
      (BidirectionAttn.build_similarity_matrix w1 w2 w3 questions contexts)
      (bidafSMask cmask qmask)).1).length = contexts.length := by
    rw [masked_softmax2_fst_length, simMatrix_length, bidafSMask_length, hcm,
      min_self]
  have hN : 0 < contexts.length := List.length_pos.mpr hc
  have hbl : ((BidirectionAttn.build_graph keep H w1 w2 w3 questions qmask
      contexts cmask noise).2.1).length = contexts.length := by
    rw [ha, softmaxRow_length, List.length_map, hSmlen]
  refine ⟨ha, ?_, ?_, ?_, ?_⟩
  · rw [ha]
    apply softmaxRow_sum
    intro hcon
    have h0 : (((masked_softmax2
        (BidirectionAttn.build_similarity_matrix w1 w2 w3 questions contexts)
        (bidafSMask cmask qmask)).1).map rowMax).length = 0 := by
      rw [hcon]; rfl
    rw [List.length_map, hSmlen] at h0
    omega
  · intro i hi
    have hrowe : ((masked_softmax2
        (BidirectionAttn.build_similarity_matrix w1 w2 w3 questions contexts)
        (bidafSMask cmask qmask)).1).getD i [] =
        masked_logits
          ((BidirectionAttn.build_similarity_matrix w1 w2 w3 questions
            contexts).getD i [])
          ((bidafSMask cmask qmask).getD i []) :=
      masked_softmax2_fst_getD _ _ i (by rw [simMatrix_length]; exact hi)
        (by rw [bidafSMask_length]; omega)
    have hrowne : ((masked_softmax2
        (BidirectionAttn.build_similarity_matrix w1 w2 w3 questions contexts)
        (bidafSMask cmask qmask)).1).getD i [] ≠ [] := by
      intro hcon
      have h0 := congrArg List.length hcon
      rw [hrowe, masked_logits_length,
        simMatrix_row_length _ _ _ _ _ i hi,
        bidafSMask_getD _ _ i (by omega)] at h0
      simp [hqm] at h0
      exact hq h0
    have hmax : (((masked_softmax2
        (BidirectionAttn.build_similarity_matrix w1 w2 w3 questions contexts)
        (bidafSMask cmask qmask)).1).map rowMax).getD i 0 =
        rowMax (((masked_softmax2
          (BidirectionAttn.build_similarity_matrix w1 w2 w3 questions
            contexts) (bidafSMask cmask qmask)).1).getD i []) := by
      rw [getD_eq _ _ _ (by rw [List.length_map, hSmlen]; exact hi),
        getD_eq _ _ _ (by rw [hSmlen]; exact hi)]
      simp
    rw [hmax]
    exact ⟨rowMax_mem _ hrowne, fun x hx => le_rowMax _ x hx⟩
  · intro dd hdd
    have hdd2 : dd < ((List.range (2 * H)).map (fun d' =>
        dot ((BidirectionAttn.build_graph keep H w1 w2 w3 questions qmask
          contexts cmask noise).2.1) (matCol contexts d'))).length := by
      simpa using hdd
    rw [getD_eq _ _ _ hdd2]
    simp only [List.getElem_map, List.getElem_range]
    rw [dot_eq_sum _ _ (by rw [hbl, matCol_length]), hbl]
    apply Finset.sum_congr rfl
    intro k hkmem
    rw [matCol_getD _ _ _ (Finset.mem_range.mp hkmem)]
  · intro i hi
    rw [getD_eq _ _ _ (by simpa using hi)]
    apply List.getElem_replicate

/-- Witness for C5 at a one-position context and question. -/
theorem bidaf_beta_and_q2c_tiling_witness :
    (BidirectionAttn.build_graph 1 1 [0, 0] [0, 0] [0, 0] [[0, 0]] [1]
      [[0, 0]] [1] (fun _ _ => 0)).2.1 =
      softmaxRow (((masked_softmax2
        (BidirectionAttn.build_similarity_matrix [0, 0] [0, 0] [0, 0]
          [[0, 0]] [[0, 0]]) (bidafSMask [1] [1])).1).map rowMax) ∧
    ((BidirectionAttn.build_graph 1 1 [0, 0] [0, 0] [0, 0] [[0, 0]] [1]
      [[0, 0]] [1] (fun _ _ => 0)).2.1).sum = 1 ∧
    (((masked_softmax2
      (BidirectionAttn.build_similarity_matrix [0, 0] [0, 0] [0, 0]
        [[0, 0]] [[0, 0]]) (bidafSMask [1] [1])).1).map rowMax).getD 0 0 ∈
      ((masked_softmax2
        (BidirectionAttn.build_similarity_matrix [0, 0] [0, 0] [0, 0]
          [[0, 0]] [[0, 0]]) (bidafSMask [1] [1])).1).getD 0 [] ∧
    ((List.range 2).map (fun d' =>
      dot ((BidirectionAttn.build_graph 1 1 [0, 0] [0, 0] [0, 0] [[0, 0]] [1]
        [[0, 0]] [1] (fun _ _ => 0)).2.1) (matCol [[0, 0]] d'))).getD 0 0 =
      ∑ k ∈ Finset.range 1,
        ((BidirectionAttn.build_graph 1 1 [0, 0] [0, 0] [0, 0] [[0, 0]] [1]
          [[0, 0]] [1] (fun _ _ => 0)).2.1).getD k 0 *
        ((([[0, 0]] : List (List ℝ)).getD k []).getD 0 0) := by
  obtain ⟨h1, h2, h3, h4, h5⟩ := bidaf_beta_and_q2c_tiling 1 1 [0, 0] [0, 0]
    [0, 0] [[0, 0]] [1] [[0, 0]] [1] (fun _ _ => 0)
    (by simp) (by simp) (by simp) (by simp)
  refine ⟨h1, h2, (h3 0 (by simp)).1, ?_⟩
  have := h4 0 (by norm_num)
  simpa using this

end Squad
